import Mathlib

/-!
Verification development for the TrailBlazeApp-Scrapers event pipeline.

The Python source is shallowly embedded as executable Lean definitions:

* `consolidate_events` models `BaseScraper._consolidate_events`
  (app/base_scraper.py).  A Python dict of events is modelled as an
  association list `List (String × Event)`; a dict key that may be absent
  is an `Option` field of `Event`.  Python exceptions raised during
  consolidation (`TypeError` from sorting a set mixing `None` and `str`,
  `ValueError` from `datetime.strptime`) are modelled with `Except`.
* `validate_event_data` models `BaseScraper.validate_event_data` together
  with the pydantic `EventDataModel` validators (app/models.py),
  including the pydantic rule that a field validator does not run when
  the field was not supplied, and the field-declaration order which makes
  the `is_pioneer_ride` validator read `ride_days` before it has been
  validated (so it sees the default 1).
* `extract_city_state_country` models the function of the same name in
  app/utils.py.
* `determine_event_type`, `extract_details` and their helpers model
  `AERCScraper._determine_event_type`, `AERCScraper._extract_details`
  and the `_parse_*` helpers (app/scrapers/aerc_scraper.py).  HTML rows
  are modelled at the granularity of their stripped text (assumed
  newline-free) plus a flag for the presence of a results link.

Dates flowing through consolidation are the strings produced by
`strftime("%Y-%m-%d")`; `parseYMDL` models `datetime.strptime(s, "%Y-%m-%d")`
(CPython's regex for `%Y` is exactly four digits, `%m`/`%d` allow one or
two digits, and the `datetime` constructor checks day-of-month validity),
and `ordDate` models `datetime.date.toordinal`.
-/

/-! ## Characters, digit lists, and Python string order -/

/-- Python compares strings by code points; `ltC` is that order on one char. -/
def ltC (a b : Char) : Bool := a.toNat < b.toNat

theorem charEq_of_toNat_eq {a b : Char} (h : a.toNat = b.toNat) : a = b := by
  rw [← Char.ofNat_toNat a, ← Char.ofNat_toNat b, h]

theorem ltC_irrefl (a : Char) : ltC a a = false := by simp [ltC]

theorem ltC_asymm {a b : Char} (h : ltC a b = true) : ltC b a = false := by
  simp [ltC] at *; omega

theorem ltC_trans {a b c : Char} (h₁ : ltC a b = true) (h₂ : ltC b c = true) :
    ltC a c = true := by
  simp [ltC] at *; omega

theorem ltC_or_eq (a b : Char) : ltC a b = true ∨ a = b ∨ ltC b a = true := by
  by_cases h₁ : ltC a b = true
  · exact Or.inl h₁
  · by_cases h₂ : ltC b a = true
    · exact Or.inr (Or.inr h₂)
    · refine Or.inr (Or.inl (charEq_of_toNat_eq ?_))
      simp [ltC] at h₁ h₂; omega

theorem ne_of_ltC {a b : Char} (h : ltC a b = true) : a ≠ b := by
  intro he; subst he; simp [ltC_irrefl] at h

/-- Lexicographic order on lists of characters: the order Python's
`sorted` uses on `str` (a strict prefix sorts first). -/
def lexLt : List Char → List Char → Bool
  | [], [] => false
  | [], _ :: _ => true
  | _ :: _, [] => false
  | a :: as, b :: bs => if ltC a b then true else if ltC b a then false else lexLt as bs

theorem lexLt_irrefl (l : List Char) : lexLt l l = false := by
  induction l with
  | nil => rfl
  | cons a t ih => simp [lexLt, ltC_irrefl, ih]

theorem lexLt_trans : ∀ {a b c : List Char},
    lexLt a b = true → lexLt b c = true → lexLt a c = true
  | [], [], _ :: _, h₁, _ => by simp [lexLt] at h₁
  | [], _ :: _, _ :: _, _, _ => by simp [lexLt]
  | x :: xs, y :: ys, z :: zs, h₁, h₂ => by
    simp only [lexLt] at h₁ h₂ ⊢
    rcases hxy : ltC x y with _ | _ <;> rcases hyz : ltC y z with _ | _ <;>
      simp [hxy, hyz] at h₁ h₂
    · -- neither head strictly less: heads equal on both sides
      rcases hyx : ltC y x with _ | _ <;> simp [hyx] at h₁
      rcases hzy : ltC z y with _ | _ <;> simp [hzy] at h₂
      have hx : x = y := by
        rcases ltC_or_eq x y with h | h | h
        · simp [h] at hxy
        · exact h
        · simp [h] at hyx
      subst hx
      simp [hxy, hyz, hzy, lexLt_trans h₁ h₂]
    · -- x = y (neither direction), y < z
      rcases hyx : ltC y x with _ | _ <;> simp [hyx] at h₁
      have hx : x = y := by
        rcases ltC_or_eq x y with h | h | h
        · simp [h] at hxy
        · exact h
        · simp [h] at hyx
      subst hx
      simp [hyz]
    · -- x < y, y = z
      rcases hzy : ltC z y with _ | _ <;> simp [hzy] at h₂
      have hy : y = z := by
        rcases ltC_or_eq y z with h | h | h
        · simp [h] at hyz
        · exact h
        · simp [h] at hzy
      subst hy
      simp [hxy]
    · exact by simp [ltC_trans hxy hyz]

theorem lexLt_trichotomy : ∀ (a b : List Char),
    lexLt a b = true ∨ a = b ∨ lexLt b a = true
  | [], [] => Or.inr (Or.inl rfl)
  | [], _ :: _ => Or.inl (by simp [lexLt])
  | _ :: _, [] => Or.inr (Or.inr (by simp [lexLt]))
  | x :: xs, y :: ys => by
    rcases ltC_or_eq x y with h | h | h
    · exact Or.inl (by simp [lexLt, h])
    · subst h
      rcases lexLt_trichotomy xs ys with h | h | h
      · exact Or.inl (by simp [lexLt, ltC_irrefl, h])
      · exact Or.inr (Or.inl (by rw [h]))
      · exact Or.inr (Or.inr (by simp [lexLt, ltC_irrefl, h]))
    · exact Or.inr (Or.inr (by simp [lexLt, h, ltC_asymm h]))

theorem lexLt_asymm : ∀ {a b : List Char}, lexLt a b = true → lexLt b a = false
  | [], _ :: _, _ => by simp [lexLt]
  | x :: xs, y :: ys, h => by
    simp only [lexLt] at h ⊢
    rcases hxy : ltC x y with _ | _ <;> simp [hxy] at h ⊢
    · rcases hyx : ltC y x with _ | _ <;> simp [hyx] at h ⊢
      exact lexLt_asymm h
    · simp [ltC_asymm hxy]

theorem lexLt_cons_same (c : Char) (a b : List Char) :
    lexLt (c :: a) (c :: b) = lexLt a b := by
  simp [lexLt, ltC_irrefl]

theorem eq_of_not_lexLt {a b : List Char} (h₁ : lexLt a b = false)
    (h₂ : lexLt b a = false) : a = b := by
  rcases lexLt_trichotomy a b with h | h | h
  · rw [h] at h₁; cases h₁
  · exact h
  · rw [h] at h₂; cases h₂

/-! ## Decimal digits and zero-padded numerals -/

/-- The ASCII digit character for a value in 0..9. -/
def digitC : Nat → Char
  | 0 => '0' | 1 => '1' | 2 => '2' | 3 => '3' | 4 => '4'
  | 5 => '5' | 6 => '6' | 7 => '7' | 8 => '8' | _ => '9'

/-- The numeric value of an ASCII digit character. -/
def digitVal (c : Char) : Option Nat :=
  if 48 ≤ c.toNat ∧ c.toNat ≤ 57 then some (c.toNat - 48) else none

/-- Big-endian, zero-padded decimal numeral of fixed width `n`. -/
def padN : Nat → Nat → List Char
  | 0, _ => []
  | n + 1, a => digitC (a / 10 ^ n) :: padN n (a % 10 ^ n)

theorem padN_length (n a : Nat) : (padN n a).length = n := by
  induction n generalizing a with
  | zero => rfl
  | succ n ih => simp [padN, ih]

theorem digitC_lt : ∀ x, x < 10 → ∀ y, y < 10 →
    (ltC (digitC x) (digitC y) = decide (x < y) ∧ (digitC x = digitC y ↔ x = y)) := by
  decide

theorem padN_lexLt (n : Nat) : ∀ a b, a < 10 ^ n → b < 10 ^ n →
    lexLt (padN n a) (padN n b) = decide (a < b) := by
  induction n with
  | zero =>
    intro a b ha hb
    interval_cases a
    interval_cases b
    rfl
  | succ n ih =>
    intro a b ha hb
    have hpow : (0:Nat) < 10 ^ n := Nat.pos_pow_of_pos n (by omega)
    have hqa : a / 10 ^ n < 10 := by
      rw [Nat.div_lt_iff_lt_mul hpow, ← pow_succ']
      exact ha
    have hqb : b / 10 ^ n < 10 := by
      rw [Nat.div_lt_iff_lt_mul hpow, ← pow_succ']
      exact hb
    have hra : a % 10 ^ n < 10 ^ n := Nat.mod_lt _ hpow
    have hrb : b % 10 ^ n < 10 ^ n := Nat.mod_lt _ hpow
    have hda := Nat.div_add_mod a (10 ^ n)
    have hdb := Nat.div_add_mod b (10 ^ n)
    obtain ⟨hlt, heq⟩ := digitC_lt (a / 10 ^ n) hqa (b / 10 ^ n) hqb
    simp only [padN, lexLt]
    rcases Nat.lt_trichotomy (a / 10 ^ n) (b / 10 ^ n) with hq | hq | hq
    · have h1 : ltC (digitC (a / 10 ^ n)) (digitC (b / 10 ^ n)) = true := by
        rw [hlt]; simpa using hq
      have hab : a < b := Nat.lt_of_div_lt_div hq
      simp [h1, hab]
    · have h1 : ltC (digitC (a / 10 ^ n)) (digitC (b / 10 ^ n)) = false := by
        rw [hlt]; simpa using (by omega : ¬ a / 10 ^ n < b / 10 ^ n)
      have h2 : ltC (digitC (b / 10 ^ n)) (digitC (a / 10 ^ n)) = false := by
        obtain ⟨hlt', _⟩ := digitC_lt (b / 10 ^ n) hqb (a / 10 ^ n) hqa
        rw [hlt']; simpa using (by omega : ¬ b / 10 ^ n < a / 10 ^ n)
      have htail := ih (a % 10 ^ n) (b % 10 ^ n) hra hrb
      have habiff : a < b ↔ a % 10 ^ n < b % 10 ^ n := by
        constructor <;> intro h <;> nlinarith [hda, hdb, hq]
      simp only [h1, h2, if_false, htail]
      by_cases h : a < b
      · simp [h, habiff.mp h]
      · have : ¬ a % 10 ^ n < b % 10 ^ n := fun hc => h (habiff.mpr hc)
        simp [h, this]
    · have h1 : ltC (digitC (a / 10 ^ n)) (digitC (b / 10 ^ n)) = false := by
        rw [hlt]; simpa using (by omega : ¬ a / 10 ^ n < b / 10 ^ n)
      have h2 : ltC (digitC (b / 10 ^ n)) (digitC (a / 10 ^ n)) = true := by
        obtain ⟨hlt', _⟩ := digitC_lt (b / 10 ^ n) hqb (a / 10 ^ n) hqa
        rw [hlt']; simpa using hq
      have hab : ¬ a < b := by
        have := Nat.lt_of_div_lt_div hq; omega
      simp [h1, h2, hab]

/-- Equal-width numerals are equal only for equal values. -/
theorem padN_inj {n a b : Nat} (ha : a < 10 ^ n) (hb : b < 10 ^ n)
    (h : padN n a = padN n b) : a = b := by
  by_contra hne
  rcases Nat.lt_or_ge a b with hlt | hge
  · have := padN_lexLt n a b ha hb
    rw [h, lexLt_irrefl] at this
    simp [hlt] at this
  · have hlt : b < a := by omega
    have := padN_lexLt n b a hb ha
    rw [h, lexLt_irrefl] at this
    simp [hlt] at this

/-- Splitting a lexicographic comparison at an equal-width boundary. -/
theorem lexLt_append : ∀ (a₁ a₂ b₁ b₂ : List Char), a₁.length = a₂.length →
    lexLt (a₁ ++ b₁) (a₂ ++ b₂) =
      (if a₁ = a₂ then lexLt b₁ b₂ else lexLt a₁ a₂)
  | [], [], b₁, b₂, _ => by simp
  | x :: xs, y :: ys, b₁, b₂, h => by
    have hlen : xs.length = ys.length := by simpa using h
    rcases ltC_or_eq x y with hxy | hxy | hxy
    · have hne : x :: xs ≠ y :: ys := fun hc => ne_of_ltC hxy (by injection hc)
      simp [lexLt, hxy, hne]
    · subst hxy
      have := lexLt_append xs ys b₁ b₂ hlen
      by_cases hx : xs = ys
      · subst hx; simp [lexLt, ltC_irrefl, this]
      · have hne : x :: xs ≠ x :: ys := fun hc => hx (by injection hc)
        simp [lexLt, ltC_irrefl, this, hx, hne]
    · have hne : x :: xs ≠ y :: ys := fun hc => ne_of_ltC hxy (by injection hc with h1 h2; exact h1.symm)
      simp [lexLt, hxy, ltC_asymm hxy, hne]

/-! ## Gregorian calendar arithmetic (CPython `datetime`) -/

/-- Gregorian leap-year rule. -/
def isLeap (y : Nat) : Bool := (y % 4 == 0 && y % 100 != 0) || y % 400 == 0

/-- Length of month `m` (1-12) of year `y`. -/
def daysInMonth (y m : Nat) : Nat :=
  if m = 2 then (if isLeap y then 29 else 28)
  else if m = 4 ∨ m = 6 ∨ m = 9 ∨ m = 11 then 30
  else 31

/-- Days of year `y` strictly before month `m` (so `daysBeforeMonth y 1 = 0`). -/
def daysBeforeMonth (y : Nat) : Nat → Nat
  | 0 => 0
  | 1 => 0
  | n + 1 => daysBeforeMonth y n + daysInMonth y n

/-- Days strictly before January 1 of year `y`, counting from 0001-01-01;
CPython's `_days_before_year`. -/
def daysBeforeYear (y : Nat) : Nat :=
  (y - 1) * 365 + (y - 1) / 4 - (y - 1) / 100 + (y - 1) / 400

/-- CPython's `date.toordinal`: 0001-01-01 is day 1. -/
def ordDate : Nat × Nat × Nat → Nat
  | (y, m, d) => daysBeforeYear y + daysBeforeMonth y m + d

/-- A (year, month, day) triple accepted by `datetime(year, month, day)`
after the `strptime` regex has matched. -/
def ValidYMD (y m d : Nat) : Prop :=
  1 ≤ y ∧ y ≤ 9999 ∧ 1 ≤ m ∧ m ≤ 12 ∧ 1 ≤ d ∧ d ≤ daysInMonth y m

theorem daysInMonth_pos (y m : Nat) : 0 < daysInMonth y m := by
  unfold daysInMonth
  split_ifs <;> omega

theorem daysBeforeMonth_succ (y n : Nat) (h : 1 ≤ n) :
    daysBeforeMonth y (n + 1) = daysBeforeMonth y n + daysInMonth y n := by
  cases n with
  | zero => omega
  | succ k => rfl

theorem daysBeforeMonth_chain (y : Nat) : ∀ {m₁ m₂ : Nat}, 1 ≤ m₁ → m₁ < m₂ →
    daysBeforeMonth y m₁ + daysInMonth y m₁ ≤ daysBeforeMonth y m₂ := by
  intro m₁ m₂ h₁ h₂
  induction m₂ with
  | zero => omega
  | succ n ih =>
    rcases Nat.lt_or_ge m₁ n with h | h
    · have hn := daysBeforeMonth_succ y n (by omega)
      have := ih h
      omega
    · have : m₁ = n := by omega
      subst this
      have hn := daysBeforeMonth_succ y m₁ (by omega)
      omega

/-- A year has 365 days, or 366 in a leap year; `daysBeforeMonth y 13`
is exactly that total. -/
theorem daysBeforeMonth_13 (y : Nat) :
    daysBeforeMonth y 13 = if isLeap y then 366 else 365 := by
  rcases h : isLeap y with _ | _ <;> simp [daysBeforeMonth, daysInMonth, h]

theorem isLeap_iff (y : Nat) :
    isLeap y = true ↔ ((4 ∣ y ∧ ¬ (100 ∣ y)) ∨ 400 ∣ y) := by
  simp [isLeap, Nat.dvd_iff_mod_eq_zero, Bool.or_eq_true, Bool.and_eq_true]

theorem daysBeforeYear_succ (y : Nat) (hy : 1 ≤ y) :
    daysBeforeYear (y + 1) = daysBeforeYear y + (if isLeap y then 366 else 365) := by
  have e1 : y + 1 - 1 = y := by omega
  unfold daysBeforeYear
  rw [e1]
  have h4 := Nat.succ_div (y - 1) 4
  have h100 := Nat.succ_div (y - 1) 100
  have h400 := Nat.succ_div (y - 1) 400
  have ey : y - 1 + 1 = y := by omega
  rw [ey] at h4 h100 h400
  have hd1 : (y - 1) / 100 ≤ (y - 1) / 4 :=
    Nat.div_le_div_left (by norm_num) (by norm_num)
  have hd2 : (y - 1) / 4 ≤ (y - 1) := Nat.div_le_self _ _
  have imp1 : (400 : Nat) ∣ y → (100 : Nat) ∣ y :=
    fun h => dvd_trans (show (100 : Nat) ∣ 400 by norm_num) h
  have imp2 : (100 : Nat) ∣ y → (4 : Nat) ∣ y :=
    fun h => dvd_trans (show (4 : Nat) ∣ 100 by norm_num) h
  by_cases l : isLeap y
  · rw [if_pos l]
    rcases (isLeap_iff y).mp l with ⟨hf, hnh⟩ | hfh
    · rw [if_pos hf] at h4
      rw [if_neg hnh] at h100
      rw [if_neg (fun hc => hnh (imp1 hc))] at h400
      omega
    · rw [if_pos (imp2 (imp1 hfh))] at h4
      rw [if_pos (imp1 hfh)] at h100
      rw [if_pos hfh] at h400
      omega
  · rw [if_neg l]
    have hni := (isLeap_iff y).not.mp l
    push_neg at hni
    obtain ⟨hni1, hni2⟩ := hni
    by_cases hf : (4 : Nat) ∣ y
    · have hh : (100 : Nat) ∣ y := hni1 hf
      rw [if_pos hf] at h4
      rw [if_pos hh] at h100
      rw [if_neg hni2] at h400
      omega
    · rw [if_neg hf] at h4
      rw [if_neg (fun hc => hf (imp2 hc))] at h100
      rw [if_neg (fun hc => hf (imp2 (imp1 hc)))] at h400
      omega

theorem daysBeforeYear_mono_step (y : Nat) (hy : 1 ≤ y) :
    daysBeforeYear y + daysBeforeMonth y 13 ≤ daysBeforeYear (y + 1) := by
  rw [daysBeforeYear_succ y hy, daysBeforeMonth_13]

theorem daysBeforeYear_le (y₁ y₂ : Nat) (h : y₁ ≤ y₂) :
    daysBeforeYear y₁ ≤ daysBeforeYear y₂ := by
  induction y₂ with
  | zero =>
    have : y₁ = 0 := by omega
    subst this
    exact le_refl _
  | succ n ih =>
    rcases Nat.lt_or_ge y₁ (n + 1) with hlt | hge
    · rcases Nat.eq_zero_or_pos n with h0 | hpos
      · subst h0
        have : y₁ = 0 := by omega
        subst this
        exact le_refl _
      · have := ih (by omega)
        have := daysBeforeYear_succ n hpos
        split_ifs at this <;> omega
    · have : y₁ = n + 1 := by omega
      subst this
      exact le_refl _

/-- `toordinal` is strictly monotone in the (year, month, day) order. -/
theorem ordDate_strict_mono {y₁ m₁ d₁ y₂ m₂ d₂ : Nat}
    (v₁ : ValidYMD y₁ m₁ d₁) (v₂ : ValidYMD y₂ m₂ d₂)
    (h : y₁ < y₂ ∨ (y₁ = y₂ ∧ (m₁ < m₂ ∨ (m₁ = m₂ ∧ d₁ < d₂)))) :
    ordDate (y₁, m₁, d₁) < ordDate (y₂, m₂, d₂) := by
  obtain ⟨hy₁, hy₁', hm₁, hm₁', hd₁, hd₁'⟩ := v₁
  obtain ⟨hy₂, hy₂', hm₂, hm₂', hd₂, hd₂'⟩ := v₂
  simp only [ordDate]
  rcases h with hy | ⟨hyeq, hm⟩
  · -- different years: everything in year y₁ is before Jan 1 of y₂
    have h1 : daysBeforeMonth y₁ m₁ + d₁ ≤ daysBeforeMonth y₁ 13 := by
      have := daysBeforeMonth_chain y₁ hm₁ (show m₁ < 13 by omega)
      omega
    have h2 : daysBeforeYear y₁ + daysBeforeMonth y₁ 13 ≤ daysBeforeYear (y₁ + 1) :=
      daysBeforeYear_mono_step y₁ hy₁
    have h3 : daysBeforeYear (y₁ + 1) ≤ daysBeforeYear y₂ :=
      daysBeforeYear_le _ _ (by omega)
    have h4 : 0 < daysBeforeMonth y₂ m₂ + d₂ := by omega
    omega
  · subst hyeq
    rcases hm with hmlt | ⟨hmeq, hd⟩
    · have := daysBeforeMonth_chain y₁ hm₁ hmlt
      omega
    · subst hmeq
      omega

/-! ## `datetime.strptime(s, "%Y-%m-%d")` and `strftime("%Y-%m-%d")` -/

/-- First alternative of a list of parses that succeeds (regex alternation). -/
def firstSome (f : α → Option β) : List α → Option β
  | [] => none
  | a :: t => match f a with | some b => some b | none => firstSome f t

theorem firstSome_eq_some {f : α → Option β} : ∀ {l : List α} {b : β},
    firstSome f l = some b → ∃ a ∈ l, f a = some b
  | a :: t, b, h => by
    simp only [firstSome] at h
    rcases hf : f a with _ | b'
    · rw [hf] at h
      obtain ⟨x, hx, hfx⟩ := firstSome_eq_some h
      exact ⟨x, by simp [hx], hfx⟩
    · rw [hf] at h
      cases h
      exact ⟨a, by simp, hf⟩

/-- Exactly four ASCII digits (CPython's `%Y` pattern). -/
def parse4 : List Char → Option (Nat × List Char)
  | a :: b :: c :: d :: rest => do
    let va ← digitVal a
    let vb ← digitVal b
    let vc ← digitVal c
    let vd ← digitVal d
    pure (va * 1000 + vb * 100 + vc * 10 + vd, rest)
  | _ => none

/-- Candidates for CPython's `%m` pattern `1[0-2]|0[1-9]|[1-9]`, in
alternation order, each with the unconsumed remainder. -/
def monthAlts : List Char → List (Nat × List Char)
  | c₁ :: c₂ :: rest =>
    (if c₁ = '1' then
      match digitVal c₂ with
      | some v => if v ≤ 2 then [(10 + v, rest)] else []
      | none => []
    else []) ++
    (if c₁ = '0' then
      match digitVal c₂ with
      | some v => if 1 ≤ v then [(v, rest)] else []
      | none => []
    else []) ++
    (match digitVal c₁ with
     | some v => if 1 ≤ v then [(v, c₂ :: rest)] else []
     | none => [])
  | [c₁] =>
    match digitVal c₁ with
    | some v => if 1 ≤ v then [(v, [])] else []
    | none => []
  | [] => []

/-- Candidates for CPython's `%d` pattern `3[01]|[12]\d|0[1-9]|[1-9]`. -/
def dayAlts : List Char → List (Nat × List Char)
  | c₁ :: c₂ :: rest =>
    (if c₁ = '3' then
      match digitVal c₂ with
      | some v => if v ≤ 1 then [(30 + v, rest)] else []
      | none => []
    else []) ++
    (match digitVal c₁, digitVal c₂ with
     | some v₁, some v₂ => if 1 ≤ v₁ ∧ v₁ ≤ 2 then [(10 * v₁ + v₂, rest)] else []
     | _, _ => []) ++
    (if c₁ = '0' then
      match digitVal c₂ with
      | some v => if 1 ≤ v then [(v, rest)] else []
      | none => []
    else []) ++
    (match digitVal c₁ with
     | some v => if 1 ≤ v then [(v, c₂ :: rest)] else []
     | none => [])
  | [c₁] =>
    match digitVal c₁ with
    | some v => if 1 ≤ v then [(v, [])] else []
    | none => []
  | [] => []

/-- `datetime(year, month, day)` bounds checking (year ≥ 1 and day within
the month; the regex already bounds month and day shapes). -/
def checkDate (y m d : Nat) : Option (Nat × Nat × Nat) :=
  if 1 ≤ y ∧ 1 ≤ d ∧ d ≤ daysInMonth y m then some (y, m, d) else none

/-- After `YYYY-MM`, expect `-` then a day alternative consuming the rest. -/
def parseAfterMonth (y m : Nat) : List Char → Option (Nat × Nat × Nat)
  | [] => none
  | c :: rest₄ =>
    if c = '-' then
      firstSome (fun (q : Nat × List Char) =>
        if q.2 = [] then checkDate y m q.1 else none) (dayAlts rest₄)
    else none

/-- After `YYYY`, expect `-` then a month alternative. -/
def parseAfterYear (y : Nat) : List Char → Option (Nat × Nat × Nat)
  | [] => none
  | c :: rest₂ =>
    if c = '-' then
      firstSome (fun (p : Nat × List Char) => parseAfterMonth y p.1 p.2) (monthAlts rest₂)
    else none

/-- `datetime.strptime(s, "%Y-%m-%d")` on the character list of `s`:
the whole string must be consumed. -/
def parseYMDL (l : List Char) : Option (Nat × Nat × Nat) :=
  match parse4 l with
  | none => none
  | some (y, rest) => parseAfterYear y rest

/-- `strftime("%Y-%m-%d")` output for a (year, month, day) triple. -/
def fmtYMD : Nat × Nat × Nat → List Char
  | (y, m, d) => padN 4 y ++ '-' :: (padN 2 m ++ '-' :: padN 2 d)

/-- A string is a canonical calendar date if `strptime` accepts it and
printing the parsed date reproduces the string (i.e. it is zero-padded
ISO `YYYY-MM-DD`, the only form the scraper itself emits). -/
def canonicalYMD (s : String) : Bool :=
  match parseYMDL s.data with
  | some t => s.data == fmtYMD t
  | none => false

theorem digitVal_le {c : Char} {v : Nat} (h : digitVal c = some v) : v ≤ 9 := by
  simp only [digitVal] at h
  split_ifs at h with hr
  cases h
  omega

theorem monthAlts_bounds : ∀ {l : List Char} {m : Nat} {r : List Char},
    (m, r) ∈ monthAlts l → 1 ≤ m ∧ m ≤ 12 := by
  intro l m r h
  match l with
  | [] => simp [monthAlts] at h
  | [c₁] =>
    simp only [monthAlts] at h
    rcases hv : digitVal c₁ with _ | v
    · simp [hv] at h
    · have := digitVal_le hv
      simp only [hv] at h
      split_ifs at h with h1
      · simp at h; omega
      · simp at h
  | c₁ :: c₂ :: rest =>
    simp only [monthAlts, List.mem_append] at h
    rcases h with (h | h) | h
    · split_ifs at h with h1
      · rcases hv : digitVal c₂ with _ | v
        · simp [hv] at h
        · simp only [hv] at h
          split_ifs at h with h2
          · simp at h; omega
          · simp at h
      · simp at h
    · split_ifs at h with h1
      · rcases hv : digitVal c₂ with _ | v
        · simp [hv] at h
        · have := digitVal_le hv
          simp only [hv] at h
          split_ifs at h with h2
          · simp at h; omega
          · simp at h
      · simp at h
    · rcases hv : digitVal c₁ with _ | v
      · simp [hv] at h
      · have := digitVal_le hv
        simp only [hv] at h
        split_ifs at h with h1
        · simp at h; omega
        · simp at h

theorem parse4_le {l : List Char} {y : Nat} {r : List Char}
    (h : parse4 l = some (y, r)) : y ≤ 9999 := by
  match l with
  | [] => cases h
  | [_] => cases h
  | [_, _] => cases h
  | [_, _, _] => cases h
  | a :: b :: c :: d :: rest =>
    simp only [parse4, Option.bind_eq_bind, Option.bind_eq_some, Option.pure_def,
      Option.some.injEq, Prod.mk.injEq] at h
    obtain ⟨va, hva, vb, hvb, vc, hvc, vd, hvd, hy, hr⟩ := h
    have := digitVal_le hva
    have := digitVal_le hvb
    have := digitVal_le hvc
    have := digitVal_le hvd
    omega

theorem parseYMDL_valid {l : List Char} {y m d : Nat}
    (h : parseYMDL l = some (y, m, d)) : ValidYMD y m d := by
  unfold parseYMDL at h
  rcases h4 : parse4 l with _ | ⟨y', rest⟩ <;> rw [h4] at h
  · cases h
  · cases rest with
    | nil => simp [parseAfterYear] at h
    | cons c rest₂ =>
      simp only [parseAfterYear] at h
      split_ifs at h with hc
      · obtain ⟨⟨mv, mr⟩, hmem, hf⟩ := firstSome_eq_some h
        simp only at hf
        cases hmr : mr with
        | nil => rw [hmr] at hf; simp [parseAfterMonth] at hf
        | cons c₂ rest₄ =>
          rw [hmr] at hf
          simp only [parseAfterMonth] at hf
          split_ifs at hf with hc₂
          · obtain ⟨⟨dv, dr⟩, hdmem, hdf⟩ := firstSome_eq_some hf
            simp only at hdf
            split_ifs at hdf with hnil
            · unfold checkDate at hdf
              split_ifs at hdf with hck
              · obtain ⟨hy, hm, hd⟩ : y' = y ∧ mv = m ∧ dv = d := by
                  cases hdf; exact ⟨rfl, rfl, rfl⟩
                subst hy; subst hm; subst hd
                have hy4 := parse4_le h4
                have hmb := monthAlts_bounds hmem
                exact ⟨hck.1, hy4, hmb.1, hmb.2, hck.2.1, hck.2.2⟩

theorem daysInMonth_le (y m : Nat) : daysInMonth y m ≤ 31 := by
  unfold daysInMonth
  split_ifs <;> omega

theorem fmtYMD_lexLt {y₁ m₁ d₁ y₂ m₂ d₂ : Nat}
    (hy₁ : y₁ ≤ 9999) (hy₂ : y₂ ≤ 9999) (hm₁ : m₁ ≤ 12) (hm₂ : m₂ ≤ 12)
    (hd₁ : d₁ ≤ 31) (hd₂ : d₂ ≤ 31)
    (h : lexLt (fmtYMD (y₁, m₁, d₁)) (fmtYMD (y₂, m₂, d₂)) = true) :
    y₁ < y₂ ∨ (y₁ = y₂ ∧ (m₁ < m₂ ∨ (m₁ = m₂ ∧ d₁ < d₂))) := by
  have p4 : (10 : Nat) ^ 4 = 10000 := by norm_num
  have p2 : (10 : Nat) ^ 2 = 100 := by norm_num
  have hy₁' : y₁ < 10 ^ 4 := by omega
  have hy₂' : y₂ < 10 ^ 4 := by omega
  have hm₁' : m₁ < 10 ^ 2 := by omega
  have hm₂' : m₂ < 10 ^ 2 := by omega
  have hd₁' : d₁ < 10 ^ 2 := by omega
  have hd₂' : d₂ < 10 ^ 2 := by omega
  unfold fmtYMD at h
  rw [lexLt_append _ _ _ _ (by rw [padN_length, padN_length])] at h
  split_ifs at h with hyeq
  · have hy : y₁ = y₂ := padN_inj hy₁' hy₂' hyeq
    subst hy
    rw [lexLt_cons_same] at h
    rw [lexLt_append _ _ _ _ (by rw [padN_length, padN_length])] at h
    split_ifs at h with hmeq
    · have hm : m₁ = m₂ := padN_inj hm₁' hm₂' hmeq
      subst hm
      rw [lexLt_cons_same] at h
      rw [padN_lexLt 2 d₁ d₂ hd₁' hd₂'] at h
      exact Or.inr ⟨rfl, Or.inr ⟨rfl, by simpa using h⟩⟩
    · rw [padN_lexLt 2 m₁ m₂ hm₁' hm₂'] at h
      exact Or.inr ⟨rfl, Or.inl (by simpa using h)⟩
  · rw [padN_lexLt 4 y₁ y₂ hy₁' hy₂'] at h
    exact Or.inl (by simpa using h)

theorem canonical_parse {s : String} (h : canonicalYMD s = true) :
    ∃ t, parseYMDL s.data = some t ∧ s.data = fmtYMD t := by
  unfold canonicalYMD at h
  rcases hp : parseYMDL s.data with _ | t <;> rw [hp] at h
  · cases h
  · exact ⟨t, rfl, by simpa using h⟩

/-- On canonical `YYYY-MM-DD` strings, Python's lexicographic string order
agrees with calendar order: a lexicographically smaller canonical date
string denotes a strictly earlier ordinal. -/
theorem ord_lt_of_canonical_lexLt {s t : String}
    (hs : canonicalYMD s = true) (ht : canonicalYMD t = true)
    (hlt : lexLt s.data t.data = true) {a b : Nat × Nat × Nat}
    (ha : parseYMDL s.data = some a) (hb : parseYMDL t.data = some b) :
    ordDate a < ordDate b := by
  obtain ⟨a', hpa, hfa⟩ := canonical_parse hs
  obtain ⟨b', hpb, hfb⟩ := canonical_parse ht
  rw [hpa] at ha
  rw [hpb] at hb
  have haa : a' = a := by injection ha
  have hbb : b' = b := by injection hb
  rw [haa] at hpa hfa
  rw [hbb] at hpb hfb
  obtain ⟨ya, ma, da⟩ := a
  obtain ⟨yb, mb, db⟩ := b
  have va : ValidYMD ya ma da := parseYMDL_valid hpa
  have vb : ValidYMD yb mb db := parseYMDL_valid hpb
  obtain ⟨va1, va2, va3, va4, va5, va6⟩ := va
  obtain ⟨vb1, vb2, vb3, vb4, vb5, vb6⟩ := vb
  rw [hfa, hfb] at hlt
  have htri := fmtYMD_lexLt va2 vb2 va4 vb4
    (le_trans va6 (daysInMonth_le _ _)) (le_trans vb6 (daysInMonth_le _ _)) hlt
  exact ordDate_strict_mono ⟨va1, va2, va3, va4, va5, va6⟩ ⟨vb1, vb2, vb3, vb4, vb5, vb6⟩ htri

/-! ## The event-record data model

A scraped event is a Python dict.  Each dict key that the pipeline reads
or writes is a field here; `none` models an absent key (for string-valued
keys whose value may also be Python `None`, absence and `None` behave
identically in every modelled operation, both being falsy / `.get` misses). -/

/-- One entry of a `distances` list: a dict with keys
`distance`, `date`, `start_time` (a `none` value models Python `None`). -/
structure DistanceEntry where
  distance : String
  date : Option String
  start_time : Option String
deriving DecidableEq, Repr

/-- One entry of a `control_judges` list: a dict with keys `name`, `role`. -/
structure Judge where
  name : String
  role : String
deriving DecidableEq, Repr

/-- An event dict.  Fields are the keys used by the scraper and by the
pydantic `EventDataModel`; `none` is an absent key. -/
structure Event where
  ride_id : Option String := none
  name : Option String := none
  source : Option String := none
  region : Option String := none
  date_start : Option String := none
  date_end : Option String := none
  location_name : Option String := none
  city : Option String := none
  state : Option String := none
  country : Option String := none
  ride_manager : Option String := none
  manager_phone : Option String := none
  manager_email : Option String := none
  website : Option String := none
  flyer_url : Option String := none
  address : Option String := none
  zip_code : Option String := none
  is_canceled : Option Bool := none
  is_multi_day_event : Option Bool := none
  is_pioneer_ride : Option Bool := none
  has_intro_ride : Option Bool := none
  ride_days : Option Int := none
  event_type : Option String := none
  description : Option String := none
  directions : Option String := none
  control_judges : Option (List Judge) := none
  distances : Option (List DistanceEntry) := none
deriving DecidableEq, Repr

/-- Association-list lookup (first match), modelling Python dict access. -/
def lookupA {α : Type} : List (String × α) → String → Option α
  | [], _ => none
  | (k', v) :: t, k => if k' = k then some v else lookupA t k

/-- Map the value stored at key `k` (no-op when `k` is absent). -/
def updateA {α : Type} (f : α → α) (k : String) : List (String × α) → List (String × α)
  | [] => []
  | (k', v) :: t => if k' = k then (k', f v) :: t else (k', v) :: updateA f k t

theorem lookupA_append_of_none {α : Type} {l : List (String × α)} {k : String}
    (h : lookupA l k = none) (p : String × α) :
    lookupA (l ++ [p]) k = if p.1 = k then some p.2 else none := by
  induction l with
  | nil => rfl
  | cons q t ih =>
    obtain ⟨k', v⟩ := q
    simp only [lookupA] at h
    by_cases hk : k' = k
    · rw [if_pos hk] at h; cases h
    · simp only [List.cons_append, lookupA, if_neg hk]
      exact ih (by rwa [if_neg hk] at h)

theorem lookupA_append_ne {α : Type} (l : List (String × α)) {k : String}
    (p : String × α) (h : p.1 ≠ k) :
    lookupA (l ++ [p]) k = lookupA l k := by
  induction l with
  | nil => simp [lookupA, h]
  | cons q t ih =>
    obtain ⟨k', v⟩ := q
    by_cases hk : k' = k <;> simp [lookupA, hk, ih]

theorem lookupA_updateA {α : Type} (f : α → α) (k k' : String) :
    ∀ l : List (String × α), lookupA (updateA f k l) k' =
      if k = k' then (lookupA l k').map f else lookupA l k'
  | [] => by simp [lookupA, updateA]
  | (k₀, v) :: t => by
    by_cases h₀ : k₀ = k
    · subst h₀
      by_cases hk : k₀ = k'
      · subst hk
        simp [lookupA, updateA]
      · simp [lookupA, updateA, hk, lookupA_updateA f k₀ k' t]
    · by_cases hk : k₀ = k'
      · subst hk
        simp [lookupA, updateA, h₀, Ne.symm h₀]
      · simp [lookupA, updateA, h₀, hk, lookupA_updateA f k k' t]

/-! ## `BaseScraper._consolidate_events` -/

/-- A Python exception escaping `_consolidate_events`. -/
inductive PyError where
  | typeError   -- sorting a set that mixes `None` and `str`
  | valueError  -- `datetime.strptime` on a non-`%Y-%m-%d` string
deriving DecidableEq, Repr

/-- Truthiness of `event.get("ride_id")`: present and not the empty string. -/
def truthyId (e : Event) : Option String :=
  match e.ride_id with
  | some k => if k = "" then none else some k
  | none => none

/-- Truthiness of `event.get("date_start")`. -/
def truthyS : Option String → Bool
  | some s => !(s == "")
  | none => false

/-- Python `set.add`: the tracked date-sets are modelled as duplicate-free
lists (only size, membership, minimum and maximum are ever consumed). -/
def insertSet {α : Type} [DecidableEq α] (x : α) (l : List α) : List α :=
  if x ∈ l then l else l ++ [x]

/-- Seeding a consolidated record: `consolidated[ride_id] = event` followed
by `consolidated[ride_id]["is_pioneer_ride"] = False`. -/
def seedEvent (e : Event) : Event := {e with is_pioneer_ride := some false}

/-- Merging one further same-id fragment into the seed:
`if 'distances' in event and 'distances' in consolidated[ride_id]:
consolidated[ride_id]['distances'].extend(event['distances'])`. -/
def mergeDist (c e : Event) : Event :=
  match e.distances, c.distances with
  | some ed, some cd => {c with distances := some (cd ++ ed)}
  | _, _ => c

/-- Adding one further same-id fragment's `date_start` to the tracked set
(`if event.get("date_start"): ...days.add(...)`). -/
def addDay (ds : List (Option String)) (e : Event) : List (Option String) :=
  if truthyS e.date_start then insertSet e.date_start ds else ds

/-- One iteration of the first loop of `_consolidate_events`. -/
def step (s : List (String × Event) × List (String × List (Option String)))
    (e : Event) : List (String × Event) × List (String × List (Option String)) :=
  match truthyId e with
  | none => s
  | some k =>
    match lookupA s.1 k with
    | none => (s.1 ++ [(k, seedEvent e)], s.2 ++ [(k, [e.date_start])])
    | some _ => (updateA (fun c => mergeDist c e) k s.1,
                 updateA (fun ds => addDay ds e) k s.2)

/-- The first loop of `_consolidate_events`: group fragments by `ride_id`,
dropping fragments whose `ride_id` is falsy, extending the seed's
`distances`, and tracking the set of `date_start` values per id (the
seed's `date_start` enters the set unconditionally, later ones only when
truthy). -/
def pass1 (l : List Event) :
    List (String × Event) × List (String × List (Option String)) :=
  l.foldl step ([], [])

/-- Python `min`/`max` of the sorted date list (`days[0]` / `days[-1]`). -/
def minLex : List String → String
  | [] => ""
  | h :: t => t.foldl (fun a b => if lexLt b.data a.data then b else a) h

def maxLex : List String → String
  | [] => ""
  | h :: t => t.foldl (fun a b => if lexLt a.data b.data then b else a) h

/-- The body of the second loop of `_consolidate_events` for one record:
when the tracked date-set has more than one member, mark the event
multi-day, sort the set (a `TypeError` if it mixes `None` and `str`),
take the span endpoints, recompute `ride_days` via `strptime`
(a `ValueError` on an unparseable endpoint), and set the pioneer flag. -/
def transformDl (dl : List (Option String)) (r : Event) : Except PyError Event :=
  if dl.length > 1 then
    let r₁ := {r with is_multi_day_event := some true, is_pioneer_ride := some false}
    if dl.contains none then .error .typeError
    else
      let strs := dl.reduceOption
      let dmin := minLex strs
      let dmax := maxLex strs
      let r₂ := {r₁ with date_start := some dmin, date_end := some dmax}
      match parseYMDL dmin.data with
      | none => .error .valueError
      | some a =>
        match parseYMDL dmax.data with
        | none => .error .valueError
        | some b =>
          let rd : Int := (ordDate b : Int) - (ordDate a : Int) + 1
          .ok {r₂ with ride_days := some rd,
                       is_pioneer_ride := some (decide (3 ≤ rd))}
  else .ok r

def transformEntry (ds : Option (List (Option String))) (r : Event) :
    Except PyError Event :=
  match ds with
  | none => .ok r
  | some dl => transformDl dl r

/-- The second loop of `_consolidate_events`. -/
def pass2 (days : List (String × List (Option String))) :
    List (String × Event) → Except PyError (List (String × Event))
  | [] => .ok []
  | (k, r) :: t =>
    match transformEntry (lookupA days k) r with
    | .error e => .error e
    | .ok r' =>
      match pass2 days t with
      | .error e => .error e
      | .ok t' => .ok ((k, r') :: t')

/-- `BaseScraper._consolidate_events` (and its public wrapper
`consolidate_events`): the returned dict keyed by `ride_id`, or the
exception that escapes it. -/
def consolidate_events (l : List Event) : Except PyError (List (String × Event)) :=
  let s := pass1 l
  pass2 s.2 s.1

/-- Which input dicts Python has mutated when `_consolidate_events`
returns: the first fragment seen for each truthy `ride_id` is aliased as
the consolidated record (so it now holds that record's final state, its
`distances` list having been extended in place); all other fragment dicts
are only read.  This computes the post-call state of the input list. -/
def mutatedInput (m : List (String × Event)) : List Event → List String → List Event
  | [], _ => []
  | e :: t, seen =>
    match truthyId e with
    | some k =>
      if k ∈ seen then e :: mutatedInput m t seen
      else ((lookupA m k).getD e) :: mutatedInput m t (k :: seen)
    | none => e :: mutatedInput m t seen

/-- A call to `_consolidate_events` observed together with its side effect
on the input fragments. -/
def consolidateRun (l : List Event) :
    Except PyError (List (String × Event) × List Event) :=
  match consolidate_events l with
  | .error e => .error e
  | .ok m => .ok (m, mutatedInput m l [])

instance exceptDecEq {ε α : Type} [DecidableEq ε] [DecidableEq α] :
    DecidableEq (Except ε α) := fun a b =>
  match a, b with
  | .error e₁, .error e₂ =>
    if h : e₁ = e₂ then .isTrue (by rw [h]) else .isFalse (fun hc => h (by injection hc))
  | .error _, .ok _ => .isFalse (fun hc => Except.noConfusion hc)
  | .ok _, .error _ => .isFalse (fun hc => Except.noConfusion hc)
  | .ok v₁, .ok v₂ =>
    if h : v₁ = v₂ then .isTrue (by rw [h]) else .isFalse (fun hc => h (by injection hc))

/-! ## Characterisation of `_consolidate_events` -/

/-- The consolidated record produced by a nonempty group of same-id
fragments, before the second loop. -/
def consOf : List Event → Option Event
  | [] => none
  | f :: t => some (t.foldl mergeDist (seedEvent f))

/-- The tracked date-set produced by a nonempty group of same-id
fragments (the seed's `date_start` enters unconditionally). -/
def daysOf : List Event → Option (List (Option String))
  | [] => none
  | f :: t => some (t.foldl addDay [f.date_start])

def combineC : Option Event → List Event → Option Event
  | none, fs => consOf fs
  | some c, fs => some (fs.foldl mergeDist c)

def combineD : Option (List (Option String)) → List Event → Option (List (Option String))
  | none, fs => daysOf fs
  | some ds, fs => some (fs.foldl addDay ds)

theorem pass1_master (l : List Event) :
    ∀ (cons : List (String × Event)) (days : List (String × List (Option String)))
      (k : String), (lookupA cons k).isSome = (lookupA days k).isSome →
    lookupA (l.foldl step (cons, days)).1 k
      = combineC (lookupA cons k) (l.filter (fun e => truthyId e == some k)) ∧
    lookupA (l.foldl step (cons, days)).2 k
      = combineD (lookupA days k) (l.filter (fun e => truthyId e == some k)) := by
  induction l with
  | nil =>
    intro cons days k _
    constructor
    · cases h' : lookupA cons k <;> simp [combineC, consOf, h']
    · cases h' : lookupA days k <;> simp [combineD, daysOf, h']
  | cons e t ih =>
    intro cons days k h
    simp only [List.foldl_cons, List.filter_cons]
    rcases hT : truthyId e with _ | k'
    · rw [if_neg (show ¬ (((none : Option String) == some k) = true) by simp)]
      simp only [step, hT]
      exact ih cons days k h
    · by_cases hk : k' = k
      · subst hk
        rw [if_pos (show ((some k' == some k') : Bool) = true by simp)]
        simp only [step, hT]
        rcases hL : lookupA cons k' with _ | c
        · have hD : lookupA days k' = none := by
            rw [hL] at h
            cases hd : lookupA days k'
            · rfl
            · rw [hd] at h; simp at h
          simp only [hL, hD]
          have hnew1 : lookupA (cons ++ [(k', seedEvent e)]) k' = some (seedEvent e) := by
            rw [lookupA_append_of_none hL]; simp
          have hnew2 : lookupA (days ++ [(k', [e.date_start])]) k' = some [e.date_start] := by
            rw [lookupA_append_of_none hD]; simp
          obtain ⟨ih1, ih2⟩ := ih (cons ++ [(k', seedEvent e)])
            (days ++ [(k', [e.date_start])]) k' (by rw [hnew1, hnew2]; rfl)
          rw [hnew1] at ih1
          rw [hnew2] at ih2
          exact ⟨ih1, ih2⟩
        · have hD : ∃ ds, lookupA days k' = some ds := by
            rw [hL] at h
            cases hd : lookupA days k'
            · rw [hd] at h; simp at h
            · exact ⟨_, rfl⟩
          obtain ⟨ds, hds⟩ := hD
          simp only [hL, hds]
          have hnew1 : lookupA (updateA (fun c => mergeDist c e) k' cons) k'
              = some (mergeDist c e) := by
            rw [lookupA_updateA, if_pos rfl, hL]; rfl
          have hnew2 : lookupA (updateA (fun ds => addDay ds e) k' days) k'
              = some (addDay ds e) := by
            rw [lookupA_updateA, if_pos rfl, hds]; rfl
          obtain ⟨ih1, ih2⟩ := ih (updateA (fun c => mergeDist c e) k' cons)
            (updateA (fun ds => addDay ds e) k' days) k' (by rw [hnew1, hnew2]; rfl)
          rw [hnew1] at ih1
          rw [hnew2] at ih2
          simp only [combineC, combineD] at ih1 ih2 ⊢
          rw [ih1, ih2]
          simp [List.foldl_cons]
      · rw [if_neg (show ¬ (((some k' : Option String) == some k) = true) by simp [hk])]
        simp only [step, hT]
        rcases hL : lookupA cons k' with _ | c
        · have hnew1 : lookupA (cons ++ [(k', seedEvent e)]) k = lookupA cons k :=
            lookupA_append_ne cons _ hk
          have hnew2 : lookupA (days ++ [(k', [e.date_start])]) k = lookupA days k :=
            lookupA_append_ne days _ hk
          obtain ⟨ih1, ih2⟩ := ih (cons ++ [(k', seedEvent e)])
            (days ++ [(k', [e.date_start])]) k (by rw [hnew1, hnew2, h])
          rw [hnew1] at ih1
          rw [hnew2] at ih2
          exact ⟨ih1, ih2⟩
        · have hnew1 : lookupA (updateA (fun c => mergeDist c e) k' cons) k
              = lookupA cons k := by
            rw [lookupA_updateA, if_neg hk]
          have hnew2 : lookupA (updateA (fun ds => addDay ds e) k' days) k
              = lookupA days k := by
            rw [lookupA_updateA, if_neg hk]
          obtain ⟨ih1, ih2⟩ := ih (updateA (fun c => mergeDist c e) k' cons)
            (updateA (fun ds => addDay ds e) k' days) k (by rw [hnew1, hnew2, h])
          rw [hnew1] at ih1
          rw [hnew2] at ih2
          exact ⟨ih1, ih2⟩

/-- The first loop groups by id: the stored record and date-set at key `k`
are exactly those computed from the sub-list of fragments whose truthy
`ride_id` equals `k`. -/
theorem pass1_char (l : List Event) (k : String) :
    lookupA (pass1 l).1 k = consOf (l.filter (fun e => truthyId e == some k)) ∧
    lookupA (pass1 l).2 k = daysOf (l.filter (fun e => truthyId e == some k)) := by
  have := pass1_master l [] [] k rfl
  simpa [combineC, combineD, lookupA] using this

theorem pass2_ok_keys {days : List (String × List (Option String))} :
    ∀ {cons m : List (String × Event)}, pass2 days cons = .ok m →
      m.map Prod.fst = cons.map Prod.fst := by
  intro cons
  induction cons with
  | nil => intro m h; cases h; rfl
  | cons p t ih =>
    intro m h
    obtain ⟨k, r⟩ := p
    simp only [pass2] at h
    rcases ht : transformEntry (lookupA days k) r with _ | r'
    · rw [ht] at h; cases h
    · rw [ht] at h
      rcases hp : pass2 days t with _ | t'
      · rw [hp] at h; cases h
      · rw [hp] at h
        cases h
        simp [ih hp]

theorem pass2_ok_lookup {days : List (String × List (Option String))} :
    ∀ {cons m : List (String × Event)}, pass2 days cons = .ok m → ∀ k r,
      lookupA cons k = some r →
      ∃ r', transformEntry (lookupA days k) r = .ok r' ∧ lookupA m k = some r' := by
  intro cons
  induction cons with
  | nil => intro m h k r hr; cases hr
  | cons p t ih =>
    intro m h k r hr
    obtain ⟨k₀, r₀⟩ := p
    simp only [pass2] at h
    rcases ht : transformEntry (lookupA days k₀) r₀ with _ | r₀'
    · rw [ht] at h; cases h
    · rw [ht] at h
      rcases hp : pass2 days t with _ | t'
      · rw [hp] at h; cases h
      · rw [hp] at h
        cases h
        simp only [lookupA] at hr ⊢
        by_cases hk : k₀ = k
        · rw [if_pos hk] at hr ⊢
          cases hr
          subst hk
          exact ⟨r₀', ht, rfl⟩
        · rw [if_neg hk] at hr ⊢
          exact ih hp k r hr

theorem pass2_none_lookup {days : List (String × List (Option String))} :
    ∀ {cons m : List (String × Event)}, pass2 days cons = .ok m → ∀ k,
      lookupA cons k = none → lookupA m k = none := by
  intro cons
  induction cons with
  | nil => intro m h k _; cases h; rfl
  | cons p t ih =>
    intro m h k hr
    obtain ⟨k₀, r₀⟩ := p
    simp only [pass2] at h
    rcases ht : transformEntry (lookupA days k₀) r₀ with _ | r₀'
    · rw [ht] at h; cases h
    · rw [ht] at h
      rcases hp : pass2 days t with _ | t'
      · rw [hp] at h; cases h
      · rw [hp] at h
        cases h
        simp only [lookupA] at hr ⊢
        by_cases hk : k₀ = k
        · rw [if_pos hk] at hr; cases hr
        · rw [if_neg hk] at hr ⊢
          exact ih hp k hr

theorem pass2_ok_of {days : List (String × List (Option String))} :
    ∀ {cons : List (String × Event)},
      (∀ p ∈ cons, ∃ r', transformEntry (lookupA days p.1) p.2 = .ok r') →
      ∃ m, pass2 days cons = .ok m := by
  intro cons
  induction cons with
  | nil => intro _; exact ⟨[], rfl⟩
  | cons p t ih =>
    intro hall
    obtain ⟨k, r⟩ := p
    obtain ⟨r', hr'⟩ := hall (k, r) (by simp)
    obtain ⟨m', hm'⟩ := ih (fun q hq => hall q (by simp [hq]))
    exact ⟨(k, r') :: m', by simp only [pass2]; rw [hr', hm']⟩

/-- Lookup in the consolidated map: the record at key `k`, when the call
returns normally, is the second-loop transform of the grouped record of
the `k`-fragments, interpreted over their tracked date-set. -/
theorem consolidate_lookup {l : List Event} {m : List (String × Event)}
    (h : consolidate_events l = .ok m) (k : String) {r : Event}
    (hr : consOf (l.filter (fun e => truthyId e == some k)) = some r) :
    ∃ r', transformEntry (daysOf (l.filter (fun e => truthyId e == some k))) r = .ok r' ∧
      lookupA m k = some r' := by
  obtain ⟨h1, h2⟩ := pass1_char l k
  unfold consolidate_events at h
  have := pass2_ok_lookup h k r (by rw [h1, hr])
  rwa [h2] at this

theorem consolidate_lookup_none {l : List Event} {m : List (String × Event)}
    (h : consolidate_events l = .ok m) (k : String)
    (hr : consOf (l.filter (fun e => truthyId e == some k)) = none) :
    lookupA m k = none := by
  obtain ⟨h1, h2⟩ := pass1_char l k
  unfold consolidate_events at h
  exact pass2_none_lookup h k (by rw [h1, hr])

/-! ## Facts about the grouped record and date-set -/

/-- Merging fragments only ever extends the `distances` list. -/
def mDist : Option (List DistanceEntry) → List Event → Option (List DistanceEntry)
  | none, _ => none
  | some cd, t => some (cd ++ (t.filterMap Event.distances).flatten)

theorem foldl_mergeDist (c : Event) (t : List Event) :
    t.foldl mergeDist c = {c with distances := mDist c.distances t} := by
  induction t generalizing c with
  | nil =>
    rcases hd : c.distances with _ | cd <;> cases c <;> simp_all [mDist]
  | cons e t ih =>
    simp only [List.foldl_cons]
    rw [ih]
    unfold mergeDist
    rcases he : e.distances with _ | ed <;> rcases hd : c.distances with _ | cd <;>
      simp [mDist, hd, he, List.filterMap_cons]

theorem mem_insertSet {α : Type} [DecidableEq α] {x y : α} {l : List α}
    (h : x ∈ insertSet y l) : x = y ∨ x ∈ l := by
  unfold insertSet at h
  split_ifs at h with hy
  · exact Or.inr h
  · rcases List.mem_append.mp h with h | h
    · exact Or.inr h
    · simp at h; exact Or.inl h

theorem nodup_insertSet {α : Type} [DecidableEq α] (y : α) {l : List α}
    (h : l.Nodup) : (insertSet y l).Nodup := by
  unfold insertSet
  split_ifs with hy
  · exact h
  · simpa [List.nodup_append] using ⟨h, hy⟩

theorem mem_foldl_addDay : ∀ {t : List Event} {init : List (Option String)}
    {x : Option String}, x ∈ t.foldl addDay init →
    x ∈ init ∨ ∃ e ∈ t, x = e.date_start := by
  intro t
  induction t with
  | nil => intro init x h; exact Or.inl h
  | cons e t ih =>
    intro init x h
    simp only [List.foldl_cons] at h
    rcases ih h with h' | ⟨e', he', hx⟩
    · unfold addDay at h'
      split_ifs at h' with hT
      · rcases mem_insertSet h' with h'' | h''
        · exact Or.inr ⟨e, by simp, h''⟩
        · exact Or.inl h''
      · exact Or.inl h'
    · exact Or.inr ⟨e', by simp [he'], hx⟩

theorem nodup_foldl_addDay : ∀ {t : List Event} {init : List (Option String)},
    init.Nodup → (t.foldl addDay init).Nodup := by
  intro t
  induction t with
  | nil => intro init h; exact h
  | cons e t ih =>
    intro init h
    simp only [List.foldl_cons]
    apply ih
    unfold addDay
    split_ifs with hT
    · exact nodup_insertSet _ h
    · exact h

theorem reduceOption_nodup : ∀ {l : List (Option String)}, l.Nodup →
    (¬ (none ∈ l)) → l.reduceOption.Nodup ∧ l.reduceOption.length = l.length := by
  intro l
  induction l with
  | nil => intro _ _; exact ⟨List.nodup_nil, rfl⟩
  | cons x t ih =>
    intro h hn
    rcases x with _ | s
    · simp at hn
    · have hx : some s ∉ t := (List.nodup_cons.mp h).1
      obtain ⟨ih1, ih2⟩ := ih (List.nodup_cons.mp h).2 (fun hc => hn (by simp [hc]))
      constructor
      · rw [List.reduceOption_cons_of_some]
        refine List.nodup_cons.mpr ⟨?_, ih1⟩
        intro hc
        exact hx (List.reduceOption_mem_iff.mp hc)
      · rw [List.reduceOption_cons_of_some]
        simp [ih2]

theorem mem_reduceOption {l : List (Option String)} {s : String}
    (h : s ∈ l.reduceOption) : some s ∈ l := List.reduceOption_mem_iff.mp h

/-! ## Python `min`/`max` over the sorted date strings -/

theorem minLex_fold_spec : ∀ (t : List String) (acc : String),
    (t.foldl (fun a b => if lexLt b.data a.data then b else a) acc = acc ∨
      t.foldl (fun a b => if lexLt b.data a.data then b else a) acc ∈ t) ∧
    ∀ x, (x = acc ∨ x ∈ t) →
      lexLt x.data (t.foldl (fun a b => if lexLt b.data a.data then b else a) acc).data
        = false := by
  intro t
  induction t with
  | nil =>
    intro acc
    refine ⟨Or.inl rfl, ?_⟩
    rintro x (rfl | hx)
    · exact lexLt_irrefl _
    · cases hx
  | cons b t ih =>
    intro acc
    simp only [List.foldl_cons]
    set acc' := if lexLt b.data acc.data then b else acc with hacc'
    obtain ⟨ihm, ihb⟩ := ih acc'
    constructor
    · rcases ihm with h | h
      · rw [h, hacc']
        split_ifs with hba
        · exact Or.inr (by simp)
        · exact Or.inl rfl
      · exact Or.inr (by simp [h])
    · rintro x (rfl | hx)
      · -- x = acc: either acc' = acc, or acc' = b with b < acc
        by_cases hba : lexLt b.data x.data = true
        · have he : acc' = b := by rw [hacc', if_pos hba]
          have hxb : lexLt x.data acc'.data = false := by rw [he]; exact lexLt_asymm hba
          have hres := ihb acc' (Or.inl rfl)
          by_cases hc : lexLt x.data (t.foldl (fun a b => if lexLt b.data a.data then b else a) acc').data = true
          · rcases lexLt_trichotomy x.data acc'.data with h' | h' | h'
            · rw [h'] at hxb; cases hxb
            · rw [h'] at hc
              rw [hc] at hres; cases hres
            · have := lexLt_trans h' hc
              rw [this] at hres; cases hres
          · simpa using hc
        · have he : acc' = x := by
            rw [hacc', if_neg (by simpa using hba)]
          exact ihb x (Or.inl he.symm)
      · rcases List.mem_cons.mp hx with rfl | hx'
        · -- x = b
          by_cases hba : lexLt x.data acc.data = true
          · exact ihb x (Or.inl (by rw [hacc', if_pos hba]))
          · have he : acc' = acc := by rw [hacc', if_neg (by simpa using hba)]
            have hres := ihb acc' (Or.inl rfl)
            by_cases hc : lexLt x.data (t.foldl (fun a b => if lexLt b.data a.data then b else a) acc').data = true
            · rcases lexLt_trichotomy x.data acc'.data with h' | h' | h'
              · rw [he] at h'
                exact absurd h' hba
              · rw [h'] at hc
                rw [hc] at hres; cases hres
              · have := lexLt_trans h' hc
                rw [this] at hres; cases hres
            · simpa using hc
        · exact ihb x (Or.inr hx')

theorem maxLex_fold_spec : ∀ (t : List String) (acc : String),
    (t.foldl (fun a b => if lexLt a.data b.data then b else a) acc = acc ∨
      t.foldl (fun a b => if lexLt a.data b.data then b else a) acc ∈ t) ∧
    ∀ x, (x = acc ∨ x ∈ t) →
      lexLt (t.foldl (fun a b => if lexLt a.data b.data then b else a) acc).data x.data
        = false := by
  intro t
  induction t with
  | nil =>
    intro acc
    refine ⟨Or.inl rfl, ?_⟩
    rintro x (rfl | hx)
    · exact lexLt_irrefl _
    · cases hx
  | cons b t ih =>
    intro acc
    simp only [List.foldl_cons]
    set acc' := if lexLt acc.data b.data then b else acc with hacc'
    obtain ⟨ihm, ihb⟩ := ih acc'
    constructor
    · rcases ihm with h | h
      · rw [h, hacc']
        split_ifs with hba
        · exact Or.inr (by simp)
        · exact Or.inl rfl
      · exact Or.inr (by simp [h])
    · rintro x (rfl | hx)
      · by_cases hba : lexLt x.data b.data = true
        · have he : acc' = b := by rw [hacc', if_pos hba]
          have hbx : lexLt acc'.data x.data = false := by rw [he]; exact lexLt_asymm hba
          have hres := ihb acc' (Or.inl rfl)
          by_cases hc : lexLt (t.foldl (fun a b => if lexLt a.data b.data then b else a) acc').data x.data = true
          · rcases lexLt_trichotomy acc'.data x.data with h' | h' | h'
            · rw [h'] at hbx; cases hbx
            · rw [← h'] at hc
              rw [hc] at hres; cases hres
            · have := lexLt_trans hc h'
              rw [this] at hres; cases hres
          · simpa using hc
        · have he : acc' = x := by
            rw [hacc', if_neg (by simpa using hba)]
          exact ihb x (Or.inl he.symm)
      · rcases List.mem_cons.mp hx with rfl | hx'
        · by_cases hba : lexLt acc.data x.data = true
          · exact ihb x (Or.inl (by rw [hacc', if_pos hba]))
          · have he : acc' = acc := by rw [hacc', if_neg (by simpa using hba)]
            have hres := ihb acc' (Or.inl rfl)
            by_cases hc : lexLt (t.foldl (fun a b => if lexLt a.data b.data then b else a) acc').data x.data = true
            · rcases lexLt_trichotomy acc'.data x.data with h' | h' | h'
              · rw [he] at h'
                exact absurd h' hba
              · rw [← h'] at hc
                rw [hc] at hres; cases hres
              · have := lexLt_trans hc h'
                rw [this] at hres; cases hres
            · simpa using hc
        · exact ihb x (Or.inr hx')

theorem minLex_mem {l : List String} (h : l ≠ []) : minLex l ∈ l := by
  match l with
  | x :: t =>
    obtain ⟨hm, _⟩ := minLex_fold_spec t x
    show t.foldl (fun a b => if lexLt b.data a.data then b else a) x ∈ x :: t
    rcases hm with h' | h'
    · rw [h']; simp
    · simp [h']

theorem minLex_le {l : List String} {x : String} (hx : x ∈ l) :
    lexLt x.data (minLex l).data = false := by
  match l with
  | y :: t =>
    obtain ⟨_, hb⟩ := minLex_fold_spec t y
    show lexLt x.data (t.foldl (fun a b => if lexLt b.data a.data then b else a) y).data = false
    rcases List.mem_cons.mp hx with rfl | hx'
    · exact hb x (Or.inl rfl)
    · exact hb x (Or.inr hx')

theorem maxLex_mem {l : List String} (h : l ≠ []) : maxLex l ∈ l := by
  match l with
  | x :: t =>
    obtain ⟨hm, _⟩ := maxLex_fold_spec t x
    show t.foldl (fun a b => if lexLt a.data b.data then b else a) x ∈ x :: t
    rcases hm with h' | h'
    · rw [h']; simp
    · simp [h']

theorem maxLex_ge {l : List String} {x : String} (hx : x ∈ l) :
    lexLt (maxLex l).data x.data = false := by
  match l with
  | y :: t =>
    obtain ⟨_, hb⟩ := maxLex_fold_spec t y
    show lexLt (t.foldl (fun a b => if lexLt a.data b.data then b else a) y).data x.data = false
    rcases List.mem_cons.mp hx with rfl | hx'
    · exact hb x (Or.inl rfl)
    · exact hb x (Or.inr hx')

theorem stringDataInj {s t : String} (h : s.data = t.data) : s = t := by
  cases s
  cases t
  cases h
  rfl

theorem transformEntry_some (dl : List (Option String)) (r : Event) :
    transformEntry (some dl) r = transformDl dl r := rfl

theorem transformEntry_single {dl : List (Option String)} (r : Event)
    (hlen : ¬ dl.length > 1) : transformEntry (some dl) r = .ok r := by
  rw [transformEntry_some]
  unfold transformDl
  rw [if_neg hlen]

/-- In the multi-day branch, with a duplicate-free date-set of canonical
date strings, the recomputed record is marked multi-day with a day span
of at least 2 and the pioneer flag derived from that span. -/
theorem transformEntry_multi {dl : List (Option String)} {r r' : Event}
    (hlen : dl.length > 1)
    (hnodup : dl.Nodup)
    (hcanon : ∀ x ∈ dl, ∃ s, x = some s ∧ canonicalYMD s = true)
    (h : transformEntry (some dl) r = .ok r') :
    r'.is_multi_day_event = some true ∧
    ∃ rd : Int, r'.ride_days = some rd ∧ 2 ≤ rd ∧
      r'.is_pioneer_ride = some (decide (3 ≤ rd)) := by
  rw [transformEntry_some] at h
  unfold transformDl at h
  rw [if_pos hlen] at h
  have hnonem : ¬ ((none : Option String) ∈ dl) := by
    intro hc
    obtain ⟨s, hs, _⟩ := hcanon none hc
    cases hs
  have hnone : dl.contains none = false := by simpa using hnonem
  rw [hnone] at h
  simp only [Bool.false_eq_true, if_false] at h
  obtain ⟨hnodup', hlen'⟩ := reduceOption_nodup hnodup hnonem
  set strs := dl.reduceOption with hstrs
  have hlen2 : strs.length > 1 := by rw [hlen']; exact hlen
  have hne : strs ≠ [] := by
    intro hc; rw [hc] at hlen2; simp at hlen2
  have hminmem : minLex strs ∈ strs := minLex_mem hne
  have hmaxmem : maxLex strs ∈ strs := maxLex_mem hne
  have hcanon' : ∀ s ∈ strs, canonicalYMD s = true := by
    intro s hs
    obtain ⟨s', hs', hc⟩ := hcanon (some s) (mem_reduceOption hs)
    cases hs'
    exact hc
  have hmincanon := hcanon' _ hminmem
  have hmaxcanon := hcanon' _ hmaxmem
  -- the endpoints are distinct, so the lexicographic comparison is strict
  have hminne : minLex strs ≠ maxLex strs := by
    intro hc
    have hall : ∀ x ∈ strs, x = minLex strs := by
      intro x hx
      have h1 := minLex_le hx
      have h2 := maxLex_ge hx
      rw [← hc] at h2
      exact stringDataInj (eq_of_not_lexLt h1 h2)
    have h0 := hall _ (List.get_mem strs 0 (by omega))
    have h1 := hall _ (List.get_mem strs 1 (by omega))
    have := (List.Nodup.get_inj_iff hnodup').mp (h0.trans h1.symm)
    simp at this
  have hlt : lexLt (minLex strs).data (maxLex strs).data = true := by
    rcases lexLt_trichotomy (minLex strs).data (maxLex strs).data with h' | h' | h'
    · exact h'
    · exact absurd (stringDataInj h') hminne
    · rw [minLex_le hmaxmem] at h'; cases h'
  obtain ⟨ta, hpa, _⟩ := canonical_parse hmincanon
  obtain ⟨tb, hpb, _⟩ := canonical_parse hmaxcanon
  rw [hpa, hpb] at h
  simp only at h
  have hord := ord_lt_of_canonical_lexLt hmincanon hmaxcanon hlt hpa hpb
  cases h
  refine ⟨rfl, (ordDate tb : Int) - (ordDate ta : Int) + 1, rfl, by omega, rfl⟩

theorem foldl_addDay_const {d : Option String} : ∀ {t : List Event},
    (∀ f ∈ t, f.date_start = d) → t.foldl addDay [d] = [d] := by
  intro t
  induction t with
  | nil => intro _; rfl
  | cons e t ih =>
    intro h
    simp only [List.foldl_cons]
    have he : e.date_start = d := h e (by simp)
    have hstep : addDay [d] e = [d] := by
      unfold addDay
      rw [he]
      split_ifs with hT
      · unfold insertSet
        rw [if_pos (by simp)]
      · rfl
    rw [hstep]
    exact ih (fun f hf => h f (by simp [hf]))

theorem lookupA_isSome_of_mem {α : Type} : ∀ {l : List (String × α)} {p : String × α},
    p ∈ l → (lookupA l p.1).isSome = true := by
  intro l
  induction l with
  | nil => intro p h; cases h
  | cons q t ih =>
    intro p h
    obtain ⟨k, v⟩ := q
    simp only [lookupA]
    by_cases hk : k = p.1
    · rw [if_pos hk]; rfl
    · rw [if_neg hk]
      rcases List.mem_cons.mp h with rfl | h'
      · simp at hk
      · exact ih h'

theorem consolidate_keys {l : List Event} {m : List (String × Event)}
    (h : consolidate_events l = .ok m) (k : String) :
    ((lookupA m k).isSome = true ↔ ∃ e ∈ l, truthyId e = some k) := by
  constructor
  · intro hs
    rcases hfil : l.filter (fun e => truthyId e == some k) with _ | ⟨f₀, rest⟩
    · have := consolidate_lookup_none h k (by rw [hfil]; rfl)
      rw [this] at hs; cases hs
    · have hmem : f₀ ∈ l.filter (fun e => truthyId e == some k) := by rw [hfil]; simp
      rw [List.mem_filter] at hmem
      exact ⟨f₀, hmem.1, by simpa using hmem.2⟩
  · rintro ⟨e, hel, hte⟩
    rcases hfil : l.filter (fun e => truthyId e == some k) with _ | ⟨f₀, rest⟩
    · exfalso
      have := List.filter_eq_nil_iff.mp hfil e hel
      simp [hte] at this
    · obtain ⟨r', _, hr'⟩ := consolidate_lookup h k (show consOf (l.filter (fun e => truthyId e == some k)) = some (rest.foldl mergeDist (seedEvent f₀)) by rw [hfil]; rfl)
      rw [hr']; rfl

theorem transformDl_ok_of_parseable {dl : List (Option String)} (r : Event)
    (hall : ∀ x ∈ dl, ∃ s, x = some s ∧ (parseYMDL s.data).isSome = true) :
    ∃ r', transformDl dl r = .ok r' := by
  unfold transformDl
  split_ifs with hlen hnone
  · exfalso
    have : (none : Option String) ∈ dl := by simpa using hnone
    obtain ⟨s, hs, _⟩ := hall none this
    cases hs
  · have hne : dl.reduceOption ≠ [] := by
      intro hc
      match dl, hlen with
      | x :: t, _ =>
        obtain ⟨s, hs, _⟩ := hall x (by simp)
        subst hs
        rw [List.reduceOption_cons_of_some] at hc
        cases hc
    have hminmem := minLex_mem hne
    have hmaxmem := maxLex_mem hne
    obtain ⟨smin, hsmin, hpmin⟩ := hall (some (minLex dl.reduceOption)) (mem_reduceOption hminmem)
    obtain ⟨smax, hsmax, hpmax⟩ := hall (some (maxLex dl.reduceOption)) (mem_reduceOption hmaxmem)
    have hsmin' : minLex dl.reduceOption = smin := by injection hsmin
    have hsmax' : maxLex dl.reduceOption = smax := by injection hsmax
    dsimp only
    rw [hsmin', hsmax']
    rcases hpa : parseYMDL smin.data with _ | a
    · rw [hpa] at hpmin; cases hpmin
    · rcases hpb : parseYMDL smax.data with _ | b
      · rw [hpb] at hpmax; cases hpmax
      · exact ⟨_, rfl⟩
  · exact ⟨r, rfl⟩


/-! ## Claim theorems -/

/-- C1: consolidating two fragments that share a truthy `ride_id` and carry
the distinct `date_start` values 2025-06-01 and 2025-06-02 (each with a
`distances` key) yields exactly one record for that id, marked
`is_multi_day_event = true` with `ride_days = 2`, `date_start` the minimum
and `date_end` the maximum of the two dates, and a `distances` list
holding the entries of both fragments in order. -/
theorem claim_C1 (e₁ e₂ : Event) (i : String) (d₁ d₂ : List DistanceEntry)
    (hi : i ≠ "")
    (h₁ : e₁.ride_id = some i) (h₂ : e₂.ride_id = some i)
    (hd₁ : e₁.date_start = some ("2025-06-01"))
    (hd₂ : e₂.date_start = some ("2025-06-02"))
    (hx₁ : e₁.distances = some d₁) (hx₂ : e₂.distances = some d₂) :
    consolidate_events [e₁, e₂] = .ok [(i,
      { e₁ with
        is_pioneer_ride := some false,
        is_multi_day_event := some true,
        ride_days := some 2,
        date_start := some ("2025-06-01"),
        date_end := some ("2025-06-02"),
        distances := some (d₁ ++ d₂) })] := by
  have hT₁ : truthyId e₁ = some i := by simp [truthyId, h₁, hi]
  have hT₂ : truthyId e₂ = some i := by simp [truthyId, h₂, hi]
  unfold consolidate_events pass1
  simp only [List.foldl_cons, List.foldl_nil]
  rw [show step ([], []) e₁ = ([(i, seedEvent e₁)], [(i, [e₁.date_start])]) by
    simp [step, hT₁, lookupA]]
  rw [show step ([(i, seedEvent e₁)], [(i, [e₁.date_start])]) e₂
      = ([(i, mergeDist (seedEvent e₁) e₂)], [(i, addDay [e₁.date_start] e₂)]) by
    simp [step, hT₂, lookupA, updateA]]
  have haD : addDay [e₁.date_start] e₂
      = [some ("2025-06-01"), some ("2025-06-02")] := by
    unfold addDay
    rw [hd₂, hd₁]
    decide
  rw [haD]
  have hM : mergeDist (seedEvent e₁) e₂
      = { seedEvent e₁ with distances := some (d₁ ++ d₂) } := by
    unfold mergeDist
    rw [hx₂]
    rw [show (seedEvent e₁).distances = some d₁ from by simp [seedEvent, hx₁]]
  have hLk : lookupA [(i, ([some ("2025-06-01"), some ("2025-06-02")] : List (Option String)))] i
      = some ([some ("2025-06-01"), some ("2025-06-02")] : List (Option String)) := by
    simp [lookupA]
  have hTR : transformEntry (some ([some ("2025-06-01"), some ("2025-06-02")]))
      (mergeDist (seedEvent e₁) e₂)
      = .ok ({ e₁ with
                is_pioneer_ride := some false,
                is_multi_day_event := some true,
                ride_days := some 2,
                date_start := some ("2025-06-01"),
                date_end := some ("2025-06-02"),
                distances := some (d₁ ++ d₂) } : Event) := by
    rw [hM, transformEntry_some]
    unfold transformDl
    rw [if_pos (by decide)]
    rw [show ([some ("2025-06-01"), some ("2025-06-02")] : List (Option String)).contains none
        = false by decide]
    simp only [Bool.false_eq_true, if_false]
    rw [show ([some ("2025-06-01"), some ("2025-06-02")] : List (Option String)).reduceOption
        = ["2025-06-01", "2025-06-02"] by decide]
    rw [show minLex (["2025-06-01", "2025-06-02"]) = "2025-06-01" by decide]
    rw [show maxLex (["2025-06-01", "2025-06-02"]) = "2025-06-02" by decide]
    rw [show parseYMDL ("2025-06-01").data = some (2025, 6, 1) by decide]
    rw [show parseYMDL ("2025-06-02").data = some (2025, 6, 2) by decide]
    rfl
  simp only [pass2, hLk, hTR]

def c1d₁ : List DistanceEntry :=
  [{ distance := "50", date := some ("2025-06-01"), start_time := some ("00:00") }]

def c1d₂ : List DistanceEntry :=
  [{ distance := "75", date := some ("2025-06-02"), start_time := some ("00:00") }]

def c1w₁ : Event :=
  { ride_id := some ("3001"), name := some ("June Ride"),
    date_start := some ("2025-06-01"), distances := some c1d₁ }

def c1w₂ : Event :=
  { ride_id := some ("3001"), name := some ("June Ride"),
    date_start := some ("2025-06-02"), distances := some c1d₂ }

theorem claim_C1_witness :
    consolidate_events [c1w₁, c1w₂] = .ok [(("3001" : String),
      { c1w₁ with
        is_pioneer_ride := some false,
        is_multi_day_event := some true,
        ride_days := some 2,
        date_start := some ("2025-06-01"),
        date_end := some ("2025-06-02"),
        distances := some (c1d₁ ++ c1d₂) })] :=
  claim_C1 c1w₁ c1w₂ ("3001") c1d₁ c1d₂ (by decide) rfl rfl rfl rfl rfl rfl

def truthyIds (l : List Event) : List String := l.filterMap truthyId

/-- C10: when every fragment of a truthy id carries one and the same
`date_start`, the consolidated record for that id is exactly the first
such fragment with `is_pioneer_ride` set to `false` and its `distances`
extended (when both sides have the key) by the later fragments' distance
lists; every other field — including `is_multi_day_event`, `ride_days`
and `date_end`, which stay absent unless the fragment carried them — is
the first fragment's value. -/
theorem claim_C10 (l : List Event) (m : List (String × Event)) (k : String)
    (f₀ : Event) (rest : List Event)
    (hfil : l.filter (fun e => truthyId e == some k) = f₀ :: rest)
    (hdates : ∀ f ∈ rest, f.date_start = f₀.date_start)
    (hok : consolidate_events l = .ok m) :
    lookupA m k = some { f₀ with
      is_pioneer_ride := some false,
      distances := mDist f₀.distances rest } := by
  obtain ⟨r', htr, hlk⟩ := consolidate_lookup hok k
    (show consOf (l.filter (fun e => truthyId e == some k))
      = some (rest.foldl mergeDist (seedEvent f₀)) by rw [hfil]; rfl)
  have hdl : daysOf (l.filter (fun e => truthyId e == some k))
      = some [f₀.date_start] := by
    rw [hfil]
    show some (rest.foldl addDay [f₀.date_start]) = some [f₀.date_start]
    rw [foldl_addDay_const hdates]
  rw [hdl] at htr
  rw [transformEntry_single _ (by simp)] at htr
  have hr' : r' = rest.foldl mergeDist (seedEvent f₀) := by
    injection htr.symm
  rw [hlk, hr', foldl_mergeDist]
  rfl


def c10d₁ : List DistanceEntry :=
  [{ distance := "25", date := some ("2025-05-05"), start_time := some ("00:00") }]

def c10d₂ : List DistanceEntry :=
  [{ distance := "50", date := some ("2025-05-05"), start_time := some ("08:00") }]

def c10e₁ : Event :=
  { ride_id := some ("7"), name := some ("One Day A"),
    date_start := some ("2025-05-05"), distances := some c10d₁ }

def c10e₂ : Event :=
  { ride_id := some ("7"), name := some ("One Day B"),
    date_start := some ("2025-05-05"), distances := some c10d₂ }

theorem claim_C10_witness :
    lookupA [(("7" : String),
      ({ c10e₁ with
          is_pioneer_ride := some false,
          distances := some (c10d₁ ++ c10d₂) } : Event))] ("7")
      = some { c10e₁ with
          is_pioneer_ride := some false,
          distances := mDist c10e₁.distances [c10e₂] } :=
  claim_C10 [c10e₁, c10e₂] _ ("7") c10e₁ [c10e₂] (by decide) (by decide) (by decide)

def c4dA : List DistanceEntry :=
  [{ distance := "50", date := some ("2025-06-01"), start_time := some ("00:00") }]

def c4dB : List DistanceEntry :=
  [{ distance := "75", date := some ("2025-06-02"), start_time := some ("00:00") }]

def c4e₁ : Event :=
  { ride_id := some ("1"), name := some ("A"),
    date_start := some ("2025-06-01"), distances := some c4dA }

def c4e₂ : Event :=
  { ride_id := some ("1"), name := some ("B"),
    date_start := some ("2025-06-02"), distances := some c4dB }

/-- C4 fails as stated: permuting the fragment list permutes the seed
(so the `name` field) and the order of the concatenated `distances`. -/
theorem claim_C4_counterexample :
    ([c4e₂, c4e₁] : List Event).Perm [c4e₁, c4e₂] ∧
    consolidate_events [c4e₁, c4e₂] ≠ consolidate_events [c4e₂, c4e₁] := by
  constructor
  · exact List.Perm.swap c4e₁ c4e₂ []
  · decide

/-- C4 (amended): what is permutation-invariant is the key set of the
consolidated map — grouping is by id — while the records themselves may
depend on fragment order (seed fields, distance-list order). -/
theorem claim_C4 (l l' : List Event) (m m' : List (String × Event))
    (hperm : l.Perm l')
    (hok : consolidate_events l = .ok m) (hok' : consolidate_events l' = .ok m')
    (k : String) : (lookupA m k).isSome = (lookupA m' k).isSome := by
  have e1 := consolidate_keys hok k
  have e2 := consolidate_keys hok' k
  have hmem : (∃ e ∈ l, truthyId e = some k) ↔ (∃ e ∈ l', truthyId e = some k) := by
    constructor
    · rintro ⟨e, he, ht⟩
      exact ⟨e, hperm.mem_iff.mp he, ht⟩
    · rintro ⟨e, he, ht⟩
      exact ⟨e, hperm.mem_iff.mpr he, ht⟩
  rcases hb : (lookupA m k).isSome with _ | _
  · rcases hb' : (lookupA m' k).isSome with _ | _
    · rfl
    · rw [hb] at e1
      rw [hb'] at e2
      exact absurd (e1.mpr (hmem.mpr (e2.mp rfl))) (by simp)
  · rw [hb] at e1
    have := e2.mpr (hmem.mp (e1.mp rfl))
    rw [this]


theorem claim_C4_witness :
    ((lookupA (([(("1" : String),
        ({ c4e₁ with
            is_pioneer_ride := some false,
            is_multi_day_event := some true,
            ride_days := some 2,
            date_start := some ("2025-06-01"),
            date_end := some ("2025-06-02"),
            distances := some (c4dA ++ c4dB) } : Event))]) : List (String × Event)) ("1")).isSome
      = (lookupA (([(("1" : String),
        ({ c4e₂ with
            is_pioneer_ride := some false,
            is_multi_day_event := some true,
            ride_days := some 2,
            date_start := some ("2025-06-01"),
            date_end := some ("2025-06-02"),
            distances := some (c4dB ++ c4dA) } : Event))]) : List (String × Event)) ("1")).isSome) :=
  claim_C4 [c4e₁, c4e₂] [c4e₂, c4e₁] _ _ (List.Perm.swap c4e₂ c4e₁ [])
    (by decide) (by decide) ("1")

/-- C3 fails as stated: there is no fallback to `len(unique_dates)` — a
multi-member date-set containing a missing (`None`) `date_start` makes
`sorted` raise `TypeError`, aborting the whole consolidation call. -/
theorem claim_C3_counterexample :
    consolidate_events
      [({ ride_id := some ("1") } : Event),
       ({ ride_id := some ("1"), date_start := some ("2025-01-01") } : Event)]
      = .error .typeError := by decide

/-- C3 (amended): fragments lacking a truthy `ride_id` are only skipped —
never fatal — and when every fragment carries a `date_start` that
`strptime("%Y-%m-%d")` accepts, consolidation returns a map without
raising, whose keys are exactly the truthy ride ids; but a missing or
unparseable `date_start` in a multi-date group raises
`TypeError`/`ValueError` and aborts the batch instead of falling back to
the number of unique dates. -/
theorem claim_C3 (l : List Event)
    (hdates : ∀ e ∈ l, ∃ s, e.date_start = some s ∧ (parseYMDL s.data).isSome = true) :
    ∃ m, consolidate_events l = .ok m ∧
      ∀ k, ((lookupA m k).isSome = true ↔ ∃ e ∈ l, truthyId e = some k) := by
  have hentries : ∀ p ∈ (pass1 l).1,
      ∃ r', transformEntry (lookupA (pass1 l).2 p.1) p.2 = .ok r' := by
    intro p hp
    obtain ⟨k, r⟩ := p
    obtain ⟨h1, h2⟩ := pass1_char l k
    have hs := lookupA_isSome_of_mem hp
    rcases hfil : l.filter (fun e => truthyId e == some k) with _ | ⟨f₀, rest⟩
    · rw [hfil] at h1
      simp only [consOf] at h1
      rw [h1] at hs
      cases hs
    · have hdl : lookupA (pass1 l).2 k = some (rest.foldl addDay [f₀.date_start]) := by
        rw [h2, hfil]; rfl
      rw [hdl]
      rw [transformEntry_some]
      apply transformDl_ok_of_parseable
      intro x hx
      rcases mem_foldl_addDay hx with hx' | ⟨e, he, hx'⟩
      · have hf₀ : f₀ ∈ l := by
          have : f₀ ∈ l.filter (fun e => truthyId e == some k) := by rw [hfil]; simp
          exact (List.mem_filter.mp this).1
        obtain ⟨s, hs', hp'⟩ := hdates f₀ hf₀
        simp at hx'
        exact ⟨s, by rw [hx', hs'], hp'⟩
      · have hel : e ∈ l := by
          have : e ∈ l.filter (fun e => truthyId e == some k) := by rw [hfil]; simp [he]
          exact (List.mem_filter.mp this).1
        obtain ⟨s, hs', hp'⟩ := hdates e hel
        exact ⟨s, by rw [hx', hs'], hp'⟩
  obtain ⟨m, hm⟩ := pass2_ok_of hentries
  have hok : consolidate_events l = .ok m := hm
  exact ⟨m, hok, fun k => consolidate_keys hok k⟩

theorem claim_C3_witness :
    ∃ m, consolidate_events [c4e₁, c4e₂] = .ok m ∧
      ∀ k, ((lookupA m k).isSome = true ↔ ∃ e ∈ [c4e₁, c4e₂], truthyId e = some k) :=
  claim_C3 [c4e₁, c4e₂] (by decide)

def c2e : Event :=
  { ride_id := some ("9"), date_start := some ("2025-01-01"), ride_days := some 5 }

/-- C2 fails as stated: the second loop only touches groups whose tracked
date-set has more than one member, so a single-date group's record keeps
whatever `ride_days` / `is_multi_day_event` values its seed fragment
carried, unchecked. -/
theorem claim_C2_counterexample :
    consolidate_events [c2e] = .ok [(("9" : String), seedEvent c2e)] ∧
    ¬ (((seedEvent c2e).ride_days.getD 1 = 1) ↔
        ((seedEvent c2e).is_multi_day_event.getD false = false)) := by decide

/-- C2 (amended): provided every fragment carries a canonical zero-padded
`YYYY-MM-DD` `date_start` and itself satisfies the invariant under the
schema defaults (`ride_days` read as 1 and `is_multi_day_event` as false
when the key is absent), every record of the consolidated map satisfies
`ride_days = 1` iff `is_multi_day_event = false` under the same reading:
multi-date groups are recomputed with a span of at least 2 days, and
single-date groups inherit the (assumed consistent) fragment fields. -/
theorem claim_C2 (l : List Event) (m : List (String × Event))
    (hdates : ∀ e ∈ l, ∃ s, e.date_start = some s ∧ canonicalYMD s = true)
    (hfrag : ∀ e ∈ l, (e.ride_days.getD 1 = 1 ↔ e.is_multi_day_event.getD false = false))
    (hok : consolidate_events l = .ok m) (k : String) (r : Event)
    (hr : lookupA m k = some r) :
    (r.ride_days.getD 1 = 1 ↔ r.is_multi_day_event.getD false = false) := by
  rcases hfil : l.filter (fun e => truthyId e == some k) with _ | ⟨f₀, rest⟩
  · have := consolidate_lookup_none hok k (by rw [hfil]; rfl)
    rw [this] at hr; cases hr
  · obtain ⟨r', htr, hlk⟩ := consolidate_lookup hok k
      (show consOf (l.filter (fun e => truthyId e == some k))
        = some (rest.foldl mergeDist (seedEvent f₀)) by rw [hfil]; rfl)
    rw [hlk] at hr
    have hrr : r = r' := by injection hr with h'; exact h'.symm
    subst hrr
    have hdl : daysOf (l.filter (fun e => truthyId e == some k))
        = some (rest.foldl addDay [f₀.date_start]) := by rw [hfil]; rfl
    rw [hdl] at htr
    have hf₀l : f₀ ∈ l := by
      have : f₀ ∈ l.filter (fun e => truthyId e == some k) := by rw [hfil]; simp
      exact (List.mem_filter.mp this).1
    by_cases hlen : (rest.foldl addDay [f₀.date_start]).length > 1
    · -- multi-day branch: is_multi := true and ride_days := span ≥ 2
      have hcanon : ∀ x ∈ rest.foldl addDay [f₀.date_start],
          ∃ s, x = some s ∧ canonicalYMD s = true := by
        intro x hx
        rcases mem_foldl_addDay hx with hx' | ⟨e, he, hx'⟩
        · obtain ⟨s, hs', hc'⟩ := hdates f₀ hf₀l
          simp at hx'
          exact ⟨s, by rw [hx', hs'], hc'⟩
        · have hel : e ∈ l := by
            have : e ∈ l.filter (fun e => truthyId e == some k) := by
              rw [hfil]; simp [he]
            exact (List.mem_filter.mp this).1
          obtain ⟨s, hs', hc'⟩ := hdates e hel
          exact ⟨s, by rw [hx', hs'], hc'⟩
      obtain ⟨hmulti, rd, hrd, hrd2, _⟩ :=
        transformEntry_multi hlen (nodup_foldl_addDay (by simp)) hcanon htr
      rw [hrd, hmulti]
      constructor
      · intro h1
        exfalso
        simp only [Option.getD_some] at h1
        omega
      · intro h2
        simp only [Option.getD_some] at h2
        cases h2
    · -- single-date group: the fragment's own fields pass through
      rw [transformEntry_single _ hlen] at htr
      have hrr' : rest.foldl mergeDist (seedEvent f₀) = r := by injection htr
      subst hrr'
      rw [foldl_mergeDist]
      exact hfrag f₀ hf₀l


def c2w : Event :=
  { ride_id := some ("11"), date_start := some ("2025-07-04"),
    ride_days := some 1, is_multi_day_event := some false }

theorem claim_C2_witness :
    ((seedEvent c2w).ride_days.getD 1 = 1 ↔
      (seedEvent c2w).is_multi_day_event.getD false = false) :=
  claim_C2 [c2w] [(("11" : String), seedEvent c2w)] (by decide) (by decide)
    (by decide) ("11") (seedEvent c2w) (by decide)

theorem truthyId_seedEvent (e : Event) : truthyId (seedEvent e) = truthyId e := rfl

theorem seedEvent_idem (e : Event) : seedEvent (seedEvent e) = seedEvent e := rfl

theorem consolidateRun_ok {l : List Event} {m : List (String × Event)} {l₁ : List Event}
    (h : consolidateRun l = .ok (m, l₁)) :
    consolidate_events l = .ok m ∧ l₁ = mutatedInput m l [] := by
  unfold consolidateRun at h
  rcases hc : consolidate_events l with _ | m'
  · rw [hc] at h; cases h
  · rw [hc] at h
    injection h with h'
    injection h' with h1 h2
    subst h1
    exact ⟨rfl, h2.symm⟩

theorem filter_len_le_one {k : String} : ∀ {l : List Event},
    (truthyIds l).Nodup → (l.filter (fun e => truthyId e == some k)).length ≤ 1 := by
  intro l
  induction l with
  | nil => intro _; simp
  | cons e t ih =>
    intro hnod
    simp only [List.filter_cons]
    rcases hT : truthyId e with _ | k'
    · rw [if_neg (by simp)]
      exact ih (by simpa [truthyIds, List.filterMap_cons, hT] using hnod)
    · have hnod' : (truthyIds t).Nodup ∧ k' ∉ truthyIds t := by
        have : truthyIds (e :: t) = k' :: truthyIds t := by
          simp [truthyIds, List.filterMap_cons, hT]
        rw [this] at hnod
        exact ⟨(List.nodup_cons.mp hnod).2, (List.nodup_cons.mp hnod).1⟩
      by_cases hk : k' = k
      · subst hk
        rw [if_pos (by simp)]
        have hnil : t.filter (fun e => truthyId e == some k') = [] := by
          rcases hfe : t.filter (fun e => truthyId e == some k') with _ | ⟨f, fs⟩
          · rfl
          · exfalso
            have hfm : f ∈ t.filter (fun e => truthyId e == some k') := by rw [hfe]; simp
            rw [List.mem_filter] at hfm
            have : k' ∈ truthyIds t :=
              List.mem_filterMap.mpr ⟨f, hfm.1, by simpa using hfm.2⟩
            exact hnod'.2 this
        rw [hnil]
        simp
      · rw [if_neg (by simp [hk])]
        exact ih hnod'.1

theorem filter_eq_single {l : List Event} {k : String} {e : Event}
    (hnod : (truthyIds l).Nodup) (hel : e ∈ l) (hte : truthyId e = some k) :
    l.filter (fun ev => truthyId ev == some k) = [e] := by
  have hmem : e ∈ l.filter (fun ev => truthyId ev == some k) :=
    List.mem_filter.mpr ⟨hel, by simp [hte]⟩
  have hlen := filter_len_le_one (k := k) hnod
  rcases hfe : l.filter (fun ev => truthyId ev == some k) with _ | ⟨f, fs⟩
  · rw [hfe] at hmem; cases hmem
  · rw [hfe] at hmem hlen
    have : fs = [] := by
      cases fs
      · rfl
      · simp at hlen
    subst this
    simp at hmem
    rw [hmem]

/-- Under distinct truthy ids, the consolidated record at `k` is the seed
of the unique `k`-fragment. -/
theorem nodup_consolidate_lookup {l : List Event} {m : List (String × Event)}
    (hnod : (truthyIds l).Nodup) (hok : consolidate_events l = .ok m) (k : String) :
    (lookupA m k = none ∧ ∀ e ∈ l, truthyId e ≠ some k) ∨
    (∃ e ∈ l, truthyId e = some k ∧ lookupA m k = some (seedEvent e)) := by
  rcases hfil : l.filter (fun ev => truthyId ev == some k) with _ | ⟨f₀, rest⟩
  · left
    refine ⟨consolidate_lookup_none hok k (by rw [hfil]; rfl), ?_⟩
    intro e hel hte
    have := List.filter_eq_nil_iff.mp hfil e hel
    simp [hte] at this
  · right
    have hf₀ : f₀ ∈ l ∧ truthyId f₀ = some k := by
      have : f₀ ∈ l.filter (fun ev => truthyId ev == some k) := by rw [hfil]; simp
      rw [List.mem_filter] at this
      exact ⟨this.1, by simpa using this.2⟩
    have hone := filter_eq_single hnod hf₀.1 hf₀.2
    rw [hfil] at hone
    have hrest : rest = [] := by injection hone
    subst hrest
    obtain ⟨r', htr, hlk⟩ := consolidate_lookup hok k (by rw [hfil]; rfl)
    have hdl : daysOf (l.filter (fun ev => truthyId ev == some k))
        = some [f₀.date_start] := by rw [hfil]; rfl
    rw [hdl, transformEntry_single _ (by simp)] at htr
    have : seedEvent f₀ = r' := by
      have h' : List.foldl mergeDist (seedEvent f₀) [] = r' := by injection htr
      simpa using h'
    exact ⟨f₀, hf₀.1, hf₀.2, by rw [hlk, ← this]⟩

/-- With distinct truthy ids, the post-run state of the input list
rewrites every truthy fragment to its aliased consolidated record. -/
theorem mutatedInput_nodup {m : List (String × Event)} :
    ∀ {l : List Event} {seen : List String},
    (truthyIds l).Nodup → (∀ kk ∈ truthyIds l, kk ∉ seen) →
    mutatedInput m l seen = l.map (fun e =>
      match truthyId e with
      | some k => (lookupA m k).getD e
      | none => e) := by
  intro l
  induction l with
  | nil => intro seen _ _; rfl
  | cons e t ih =>
    intro seen hnod hdisj
    rcases hT : truthyId e with _ | k
    · simp only [mutatedInput, hT, List.map_cons]
      rw [ih (by simpa [truthyIds, List.filterMap_cons, hT] using hnod)
          (fun kk hkk => hdisj kk (by simpa [truthyIds, List.filterMap_cons, hT] using hkk))]
    · have hids : truthyIds (e :: t) = k :: truthyIds t := by
        simp [truthyIds, List.filterMap_cons, hT]
      have hkt : k ∉ truthyIds t := by
        rw [hids] at hnod; exact (List.nodup_cons.mp hnod).1
      have hks : k ∉ seen := hdisj k (by rw [hids]; simp)
      simp only [mutatedInput, hT, List.map_cons]
      rw [if_neg hks]
      rw [ih (by rw [hids] at hnod; exact (List.nodup_cons.mp hnod).2)
          (fun kk hkk => by
            intro hc
            rcases List.mem_cons.mp hc with rfl | hc'
            · exact hkt hkk
            · exact hdisj kk (by rw [hids]; simp [hkk]) hc')]

/-- The effect of one clean consolidation run on a fragment with a truthy
id, when ids are unique: it becomes its own seeded record. -/
def seedTruthy (e : Event) : Event :=
  match truthyId e with
  | some _ => seedEvent e
  | none => e

theorem truthyId_seedTruthy (e : Event) : truthyId (seedTruthy e) = truthyId e := by
  unfold seedTruthy
  rcases hT : truthyId e with _ | k
  · exact hT
  · exact hT

theorem truthyIds_map_seedTruthy (l : List Event) :
    truthyIds (l.map seedTruthy) = truthyIds l := by
  unfold truthyIds
  rw [List.filterMap_map]
  apply List.filterMap_congr
  intro e _
  exact truthyId_seedTruthy e

/-- C5 (amended): consolidation is idempotent only when no truthy
`ride_id` recurs in the input: then re-running on the post-call fragment
list (whose truthy fragments have been rewritten to their aliased,
seeded records) reproduces the same map; with a repeated id the in-place
`distances` extension makes the second run's map differ. -/
theorem claim_C5 (l : List Event) (m m' : List (String × Event)) (l₁ l₂ : List Event)
    (hnod : (truthyIds l).Nodup)
    (h1 : consolidateRun l = .ok (m, l₁))
    (h2 : consolidateRun l₁ = .ok (m', l₂)) :
    ∀ k, lookupA m' k = lookupA m k := by
  obtain ⟨hok1, hl₁⟩ := consolidateRun_ok h1
  obtain ⟨hok2, _⟩ := consolidateRun_ok h2
  have hmap : l₁ = l.map seedTruthy := by
    rw [hl₁, mutatedInput_nodup hnod (by simp)]
    apply List.map_congr_left
    intro e hel
    unfold seedTruthy
    rcases hT : truthyId e with _ | k
    · rfl
    · rcases nodup_consolidate_lookup hnod hok1 k with ⟨_, hnot⟩ | ⟨e', he', hte', hsome⟩
      · exact absurd hT (hnot e hel)
      · have h₁ := filter_eq_single hnod hel hT
        have h₂ := filter_eq_single hnod he' hte'
        have hee : e' = e := by
          rw [h₁] at h₂
          injection h₂ with hh ht
          exact hh.symm
        rw [hee] at hsome
        show (lookupA m k).getD e = seedEvent e
        rw [hsome]
        rfl
  have hnod₁ : (truthyIds l₁).Nodup := by
    rw [hmap, truthyIds_map_seedTruthy]
    exact hnod
  intro k
  rcases nodup_consolidate_lookup hnod hok1 k with ⟨hnone, hnot⟩ | ⟨e, hel, hte, hsome⟩
  · rcases nodup_consolidate_lookup hnod₁ hok2 k with ⟨hnone', _⟩ | ⟨e', he', hte', _⟩
    · rw [hnone, hnone']
    · exfalso
      rw [hmap] at he'
      obtain ⟨e₀, he₀, hge⟩ := List.mem_map.mp he'
      apply hnot e₀ he₀
      rw [← hte', ← hge, truthyId_seedTruthy]
  · have hel₁ : seedEvent e ∈ l₁ := by
      rw [hmap]
      refine List.mem_map.mpr ⟨e, hel, ?_⟩
      unfold seedTruthy
      rw [hte]
    rcases nodup_consolidate_lookup hnod₁ hok2 k with ⟨_, hnot'⟩ | ⟨e', he', hte', hsome'⟩
    · exact absurd (show truthyId (seedEvent e) = some k by rw [truthyId_seedEvent, hte])
        (hnot' (seedEvent e) hel₁)
    · have h₁ := filter_eq_single hnod₁ hel₁ (by rw [truthyId_seedEvent, hte])
      have h₂ := filter_eq_single hnod₁ he' hte'
      have hee : e' = seedEvent e := by
        rw [h₁] at h₂
        injection h₂ with hh ht
        exact hh.symm
      subst hee
      rw [hsome', hsome, seedEvent_idem]

def c5dA : List DistanceEntry :=
  [{ distance := "30", date := some ("2025-06-01"), start_time := some ("00:00") }]

def c5dB : List DistanceEntry :=
  [{ distance := "55", date := some ("2025-06-02"), start_time := some ("00:00") }]

def c5e₁ : Event :=
  { ride_id := some ("9"), name := some ("Twice Run"),
    date_start := some ("2025-06-01"), distances := some c5dA }

def c5e₂ : Event :=
  { ride_id := some ("9"), name := some ("Twice Run"),
    date_start := some ("2025-06-02"), distances := some c5dB }

def c5r₁ : Event :=
  { c5e₁ with
    is_pioneer_ride := some false,
    is_multi_day_event := some true,
    ride_days := some 2,
    date_start := some ("2025-06-01"),
    date_end := some ("2025-06-02"),
    distances := some (c5dA ++ c5dB) }

def c5r₂ : Event := { c5r₁ with distances := some ((c5dA ++ c5dB) ++ c5dB) }

/-- C5 fails as stated: the seed fragment of each id is aliased into the
returned map and its `distances` list is extended in place, so a second
run over the same (now mutated) fragment list appends the non-seed
fragments' distance entries a second time. -/
theorem claim_C5_counterexample :
    consolidateRun [c5e₁, c5e₂] = .ok ([(("9" : String), c5r₁)], [c5r₁, c5e₂]) ∧
    (consolidateRun [c5r₁, c5e₂]).map Prod.fst = .ok [(("9" : String), c5r₂)] ∧
    ([(("9" : String), c5r₁)] : List (String × Event)) ≠ [(("9" : String), c5r₂)] := by
  refine ⟨by decide, by decide, by decide⟩

def c5w : Event :=
  { ride_id := some ("5"), name := some ("Solo"), date_start := some ("2025-08-08"),
    distances := some c5dA }

theorem claim_C5_witness :
    lookupA [(("5" : String), seedEvent c5w)] ("5")
      = lookupA [(("5" : String), seedEvent c5w)] ("5") :=
  claim_C5 [c5w] [(("5" : String), seedEvent c5w)] [(("5" : String), seedEvent c5w)]
    [seedEvent c5w] [seedEvent c5w] (by decide) (by decide) (by decide) ("5")

/-! ## `EventDataModel` validation (app/models.py) and
`BaseScraper.validate_event_data` / `create_final_output` -/

/-- Lowercase an ASCII character (Python `str.lower` on the sources used). -/
def lcChar (c : Char) : Char :=
  if 'A' ≤ c ∧ c ≤ 'Z' then Char.ofNat (c.toNat + 32) else c

/-- Python `str.lower`. -/
def pyLower (s : String) : String := String.mk (s.data.map lcChar)

/-- `validate_date_format`: runs per supplied date value; `if v:` skips
falsy values (absent keys never reach the validator, and the empty
string is falsy), otherwise `strptime(v, '%Y-%m-%d')` must succeed. -/
def dateFieldOk : Option String → Bool
  | none => true
  | some s => (s == "") || (parseYMDL s.data).isSome

/-- `validate_ride_days`: runs only when `ride_days` was supplied;
`values.get('is_multi_day_event', False)` reads the already-validated
field (declared earlier), defaulting to `False` when absent. -/
def rideDaysReject (e : Event) : Bool :=
  match e.ride_days with
  | some v => (e.is_multi_day_event.getD false && decide (v < 2))
               || (!(e.is_multi_day_event.getD false) && decide (v ≠ 1))
  | none => false

/-- `validate_pioneer_ride`: runs only when `is_pioneer_ride` was
supplied.  `ride_days` is declared after `is_pioneer_ride`, so
`values.get('ride_days', 1)` always yields the default 1 and `1 < 3`
holds: a supplied `True` is always rejected. -/
def pioneerReject (e : Event) : Bool :=
  match e.is_pioneer_ride with
  | some v => v
  | none => false

/-- The `.dict()` of a validated model: defaulted fields materialised. -/
def fillDefaults (e : Event) : Event :=
  { e with
    country := some (e.country.getD ("USA")),
    is_canceled := some (e.is_canceled.getD false),
    is_multi_day_event := some (e.is_multi_day_event.getD false),
    is_pioneer_ride := some (e.is_pioneer_ride.getD false),
    has_intro_ride := some (e.has_intro_ride.getD false),
    ride_days := some (e.ride_days.getD 1),
    event_type := some (e.event_type.getD ("endurance")),
    control_judges := some (e.control_judges.getD []),
    distances := some (e.distances.getD []) }

/-- `BaseScraper.validate_event_data`: fill in `source`, construct
`EventDataModel(**event_data)` and return its `.dict()`; any pydantic
`ValidationError` (a `ValueError` subclass, hence caught) yields `None`.
Required fields are those declared without defaults; `distances` is
typed `List[Dict[str, str]]`, so an entry with a `None` value fails. -/
def validate_event_data (source_name : String) (e : Event) : Option Event :=
  let e' := match e.source with
    | none => {e with source := some source_name}
    | some _ => e
  if e'.ride_id.isNone || e'.name.isNone || e'.region.isNone || e'.date_start.isNone ||
     e'.location_name.isNone || e'.ride_manager.isNone then none
  else if !((e'.distances.getD []).all fun d => d.date.isSome && d.start_time.isSome) then none
  else if !(dateFieldOk e'.date_start) || !(dateFieldOk e'.date_end) then none
  else if rideDaysReject e' then none
  else if pioneerReject e' then none
  else some (fillDefaults e')

/-- `BaseScraper.create_final_output`: validate each consolidated record,
drop the invalid ones, and key the survivors by
`f"{source_name.lower()}_{ride_id}.json"`. -/
def create_final_output (source_name : String) : List (String × Event) → List (String × Event)
  | [] => []
  | (ride_id, event) :: t =>
    match validate_event_data source_name event with
    | some v => (pyLower source_name ++ "_" ++ ride_id ++ ".json", v)
        :: create_final_output source_name t
    | none => create_final_output source_name t

/-- C7 (amended): `validate_event_data` rejects — by returning `None`,
never raising, and `create_final_output` simply drops the record and
continues with the rest of the batch — every consolidated record whose
violation is visible to the pydantic validators: a supplied `ride_days`
inconsistent with `is_multi_day_event` (≠ 1 while not multi-day, or < 2
while multi-day), a supplied `is_pioneer_ride = True` (the pioneer
validator runs before `ride_days` is validated and always sees the
default 1, so every violating pioneer record is rejected), or a supplied
nonempty date that `strptime('%Y-%m-%d')` refuses.  But a record whose
`ride_days` key is absent skips the consistency validator (so
`is_multi_day_event = true` alone is accepted with the defaulted
`ride_days = 1`), and an empty-string date is skipped by `if v:`. -/
theorem claim_C7 (src : String) (e : Event)
    (hviol : (e.is_multi_day_event.getD false = false ∧ ∃ v, e.ride_days = some v ∧ v ≠ 1)
      ∨ (e.is_multi_day_event = some true ∧ ∃ v, e.ride_days = some v ∧ v < 2)
      ∨ (e.is_pioneer_ride = some true)
      ∨ (∃ s, (e.date_start = some s ∨ e.date_end = some s) ∧ s ≠ ""
           ∧ parseYMDL s.data = none)) :
    validate_event_data src e = none ∧
    ∀ (m₁ m₂ : List (String × Event)) (rid : String),
      create_final_output src (m₁ ++ (rid, e) :: m₂) = create_final_output src (m₁ ++ m₂) := by
  have hnone : validate_event_data src e = none := by
    unfold validate_event_data
    rcases hsrc : e.source with _ | s₀ <;>
    · dsimp only
      split_ifs with h₁ h₂ h₃ h₄ h₅ <;> try rfl
      exfalso
      rcases hviol with ⟨hm, v, hv, hv1⟩ | ⟨hm, v, hv, hv2⟩ | hp | ⟨s, hs, hne, hpn⟩
      · apply h₄
        unfold rideDaysReject
        simp only [hv, hm]
        simp [hv1]
      · apply h₄
        unfold rideDaysReject
        simp only [hv, hm]
        simp
        omega
      · apply h₅
        unfold pioneerReject
        simp only [hp]
      · rcases hs with hs | hs
        · apply h₃
          simp only [hs]
          unfold dateFieldOk
          simp [hne, hpn]
        · apply h₃
          simp only [hs]
          unfold dateFieldOk
          simp [hne, hpn]
  refine ⟨hnone, ?_⟩
  intro m₁ m₂ rid
  induction m₁ with
  | nil =>
    simp only [List.nil_append, create_final_output, hnone]
  | cons p t ih =>
    obtain ⟨k₀, e₀⟩ := p
    simp only [List.cons_append, create_final_output, List.append_eq]
    rw [ih]

def c7acc : Event :=
  { ride_id := some ("77"), name := some ("N"), source := some ("AERC"),
    region := some ("W"), date_start := some ("2025-01-01"), date_end := some (""),
    location_name := some ("L"), ride_manager := some ("M"),
    is_multi_day_event := some true }

/-- C7 fails as stated: a consolidated record carrying
`is_multi_day_event = true` but no `ride_days` key violates the §3
invariant (its `ride_days` reads as the default 1 < 2), yet the
`ride_days` validator never runs for an unsupplied field, so pydantic
accepts it — and its empty-string `date_end`, unparseable as
`YYYY-MM-DD`, is skipped by `if v:` as well. -/
theorem claim_C7_counterexample :
    validate_event_data ("AERC") c7acc = some (fillDefaults c7acc) ∧
    (fillDefaults c7acc).is_multi_day_event = some true ∧
    (fillDefaults c7acc).ride_days = some 1 ∧
    (fillDefaults c7acc).date_end = some ("") := by decide

def c7v : Event :=
  { ride_id := some ("78"), name := some ("N"), source := some ("AERC"),
    region := some ("W"), date_start := some ("2025-01-01"),
    location_name := some ("L"), ride_manager := some ("M"),
    ride_days := some 5 }

theorem claim_C7_witness :
    validate_event_data ("AERC") c7v = none ∧
    create_final_output ("AERC") ([] ++ (("78", c7v)) :: [])
      = create_final_output ("AERC") ([] ++ []) :=
  ⟨(claim_C7 ("AERC") c7v (Or.inl ⟨by decide, 5, rfl, by decide⟩)).1,
   (claim_C7 ("AERC") c7v (Or.inl ⟨by decide, 5, rfl, by decide⟩)).2 [] [] ("78")⟩

/-! ## `app/utils.py::extract_city_state_country` -/

/-- Characters Python's default `str.strip()` removes. -/
def isPyWs (c : Char) : Bool :=
  c = ' ' || c = '\t' || c = '\n' || c = '\r' || c = '\x0b' || c = '\x0c'

def stripWhile (p : Char → Bool) (l : List Char) : List Char :=
  ((l.dropWhile p).reverse.dropWhile p).reverse

/-- Python `str.strip()`. -/
def pyStrip (s : String) : String := String.mk (stripWhile isPyWs s.data)

/-- Python `str.strip(',')`. -/
def pyStripComma (s : String) : String :=
  String.mk (stripWhile (fun c => c = ',') s.data)

def startsWithL : List Char → List Char → Bool
  | [], _ => true
  | _ :: _, [] => false
  | p :: ps, c :: cs => (p = c) && startsWithL ps cs

/-- `re.sub(pat + '.*', '', s, flags=re.IGNORECASE)` for a literal `pat`:
delete every occurrence of the pattern together with the rest of its
line (`.` does not match a newline); scanning resumes at the newline.
The fuel argument (instantiated with the input length, which always
suffices since each step strictly shrinks the list) keeps the
recursion structural so that the kernel can evaluate it. -/
def subPatToEndF (pat : List Char) : Nat → List Char → List Char
  | _, [] => []
  | 0, l => l
  | fuel + 1, c :: t =>
    if pat = [] then c :: t
    else if startsWithL (pat.map lcChar) ((c :: t).map lcChar) then
      subPatToEndF pat fuel (((c :: t).drop pat.length).dropWhile (fun ch => ch ≠ '\n'))
    else c :: subPatToEndF pat fuel t

def subPatToEnd (pat l : List Char) : List Char := subPatToEndF pat l.length l

def splitOnCharAux (sep : Char) : List Char → List Char → List String
  | [], acc => [String.mk acc.reverse]
  | c :: t, acc =>
    if c = sep then String.mk acc.reverse :: splitOnCharAux sep t []
    else splitOnCharAux sep t (c :: acc)

/-- Python `str.split(sep)` for a single-character separator. -/
def splitOnChar (sep : Char) (s : String) : List String := splitOnCharAux sep s.data []

/-- Python `str.rsplit(sep, 1)` for a single-character separator. -/
def rsplit1 (sep : Char) (s : String) : List String :=
  let r := s.data.reverse
  match r.findIdx? (fun c => c = sep) with
  | none => [s]
  | some i => [String.mk ((r.drop (i + 1)).reverse), String.mk ((r.take i).reverse)]

def canadianProvinces : List String :=
  ["AB", "BC", "MB", "NB", "NL", "NS", "NT", "NU", "ON", "PE", "QC", "SK", "YT"]

/-- A candidate state token: a 2-letter alphabetic code or a Canadian
province code (the validation used in the 2-part and 1-part branches). -/
def stateLooksValid (st : String) : Bool :=
  (st.length = 2 && st.data.all Char.isAlpha) || decide (st ∈ canadianProvinces)

/-- `app/utils.py::extract_city_state_country`: comma-splitting with
positional heuristics; country defaults to USA and flips to Canada on a
Canadian province code. -/
def extract_city_state_country (location_string : String) :
    Option String × Option String × String :=
  if location_string = "" then (none, none, "USA")
  else
    let cleaned := pyStrip (pyStripComma (pyStrip location_string))
    let cleaned := pyStrip (String.mk (subPatToEnd
      (String.data ("Click Here for Directions via Google Maps")) cleaned.data))
    let cleaned := pyStrip (String.mk (subPatToEnd
      (String.data ("via Google Maps")) cleaned.data))
    let cleaned := pyStrip (String.mk (subPatToEnd
      (String.data ("Directions via Google Maps")) cleaned.data))
    let parts := (((splitOnChar ',' cleaned).map pyStrip).filter (fun p => p ≠ ""))
    let res : Option String × Option String × String :=
      if 3 ≤ parts.length then
        let state_part := parts.getLastD ("")
        let city := parts.getD (parts.length - 2) ("")
        let res₁ : Option String × String :=
          match rsplit1 ' ' state_part with
          | [a, b] =>
            if pyLower b = pyLower ("Canada") then (some a, "Canada")
            else (some state_part, "USA")
          | _ => (some state_part, "USA")
        let state := res₁.1
        let country := if (state.getD ("")) ∈ canadianProvinces then "Canada" else res₁.2
        (some city, state, country)
      else if parts.length = 2 then
        let first_part := parts.getD 0 ("")
        let second_part := parts.getD 1 ("")
        match rsplit1 ' ' second_part with
        | [potential_city, potential_state] =>
          if stateLooksValid potential_state then
            (some potential_city, some potential_state,
              if potential_state ∈ canadianProvinces then "Canada" else "USA")
          else
            -- treat as "City, State"; drop the state when it looks invalid
            if ¬ stateLooksValid second_part then (some first_part, none, "USA")
            else (some first_part, some second_part,
              if second_part ∈ canadianProvinces then "Canada" else "USA")
        | _ =>
          if ¬ stateLooksValid second_part then (some first_part, none, "USA")
          else (some first_part, some second_part,
            if second_part ∈ canadianProvinces then "Canada" else "USA")
      else if parts.length = 1 then
        let p := parts.getD 0 ("")
        match rsplit1 ' ' p with
        | [potential_city, potential_state] =>
          if stateLooksValid potential_state then
            (some potential_city, some potential_state,
              if potential_state ∈ canadianProvinces then "Canada" else "USA")
          else (some p, none, "USA")
        | _ =>
          if stateLooksValid p then
            (none, some p, if p ∈ canadianProvinces then "Canada" else "USA")
          else (some p, none, "USA")
      else (none, none, "USA")
    let city := res.1
    let state := res.2.1
    let country := res.2.2
    -- final check for country based on state
    let country := match state with
      | some st => if st ∈ canadianProvinces then "Canada" else country
      | none => country
    -- trim final results; a falsy (empty) value becomes None
    let city := match city with
      | some c => if c = "" then none else some (pyStrip c)
      | none => none
    let state := match state with
      | some st => if st = "" then none else some (pyStrip st)
      | none => none
    (city, state, country)

/-- C8: `extract_city_state_country` maps "Las Colinas Ranch, Wickenburg, AZ"
to ("Wickenburg", "AZ", "USA"), "Durham Forest, Durham, ON" to
("Durham", "ON", "Canada"), and the empty string to (None, None, "USA"). -/
theorem claim_C8 :
    extract_city_state_country ("Las Colinas Ranch, Wickenburg, AZ")
      = (some ("Wickenburg"), some ("AZ"), "USA") ∧
    extract_city_state_country ("Durham Forest, Durham, ON")
      = (some ("Durham"), some ("ON"), "Canada") ∧
    extract_city_state_country ("") = (none, none, "USA") := by
  refine ⟨by decide, by decide, by decide⟩

/-! ## `AERCScraper._determine_event_type` -/

/-- Python substring containment (`pat in hay`). -/
def containsSub (pat : List Char) : List Char → Bool
  | [] => decide (pat = [])
  | c :: t => startsWithL pat (c :: t) || containsSub pat t

/-- Python `str.split(sep)` for a non-empty separator `pat`:
non-overlapping left-to-right matches split the string. The fuel
argument (instantiated with the input length, which always suffices)
keeps the recursion structural. -/
def splitOnSubF (pat : List Char) : Nat → List Char → List Char → List String
  | _, [], acc => [String.mk acc.reverse]
  | 0, l, acc => [String.mk (acc.reverse ++ l)]
  | fuel + 1, c :: t, acc =>
    if !pat.isEmpty && startsWithL pat (c :: t) then
      String.mk acc.reverse :: splitOnSubF pat fuel ((c :: t).drop pat.length) []
    else splitOnSubF pat fuel t (c :: acc)

def pySplitSub (pat : List Char) (s : String) : List String :=
  splitOnSubF pat s.data.length s.data []

/-- `AERCScraper._determine_event_type`: keyword scan over the row's
lower-cased text; the final branch tests `"ld" in text` guarded by
`"old" not in text.split("ld")`. -/
def determine_event_type (rowText : String) : String :=
  let text := pyLower rowText
  if containsSub (String.data ("competitive trail")) text.data then "competitive_trail"
  else if containsSub (String.data ("ctc")) text.data then "competitive_trail"
  else if containsSub (String.data ("limited distance")) text.data then "limited_distance"
  else if containsSub (String.data ("ld")) text.data
      && !((pySplitSub (String.data ("ld")) text).contains ("old")) then
    "limited_distance"
  else "endurance"

/-- C9: the classifier is NOT guarded against "ld" occurring only inside
another word: "The Old Barn Ride" is classified `limited_distance`
although its only "ld" is inside "Old" (the claim says such text maps to
`endurance`); the split-on-"ld" guard can never fire, since no part of
`text.split("ld")` contains "ld" and hence none equals "old". The other
two conjuncts record the keyword branches behaving as claimed. -/
theorem claim_C9 :
    determine_event_type ("The Old Barn Ride") = "limited_distance" ∧
    determine_event_type ("Pioneer endurance ride") = "endurance" ∧
    determine_event_type ("Fun CTC weekend") = "competitive_trail" := by
  refine ⟨by decide, by decide, by decide⟩

/-! ## `AERCScraper._extract_details` and the past-event branch of
`AERCScraper.extract_event_data`

A calendar-row fragment is modelled at markup granularity: the `CalRow`
fields record what the BeautifulSoup queries of `_find_details_elements`
and of the basic extractors (`_extract_name_and_id`,
`_extract_region_date_location`, `_extract_manager_info`,
`_extract_website_flyer`, `_determine_has_intro_ride`) find in the row,
and `detailRows` holds one `DetailRow` per `<tr>` of the detail table
(its stripped text and whether it carries a `rides-ride-result` link).
The four row-parsing helpers `_parse_manager_details`,
`_parse_control_judges`, `_parse_distances` and
`_parse_description_directions` only receive the row text and mutate the
details dict, so they are modelled as arbitrary update functions on the
`Details` state (parameters `pm`, `pj`, `pd`, `pdd`); every theorem below
holds for every behaviour of these helpers, which is exactly the
"regardless of whether results markup was present or parseable" reading. -/

/-- The `details` dict initialised at the top of `_extract_details`. -/
structure Details where
  control_judges : List Judge
  distances : List DistanceEntry
  description : Option String
  directions : Option String
  manager_email : Option String
  manager_phone : Option String
  ride_manager : Option String
deriving DecidableEq, Repr

def initDetails : Details :=
  { control_judges := [], distances := [], description := none,
    directions := none, manager_email := none, manager_phone := none,
    ride_manager := none }

/-- One `<tr>` of the detail table: its `get_text()` and whether it
contains an `<a>` whose href mentions `rides-ride-result`. -/
structure DetailRow where
  text : String
  hasResultsLink : Bool
deriving DecidableEq, Repr

/-- A calendar-row fragment, at the granularity of the BeautifulSoup
queries the scraper performs on it. -/
structure CalRow where
  name : Option String := none
  ride_id : Option String := none
  is_canceled : Option Bool := none
  region : Option String := none
  date_start : Option String := none
  location_name : String := ""
  website : Option String := none
  flyer_url : Option String := none
  has_intro_ride : Option Bool := none
  rowText : String := ""
  hasDetailsTr : Bool := false
  hasDetailTable : Bool := false
  hasResultsStar : Bool := false
  detailRows : List DetailRow := []
deriving DecidableEq, Repr

/-- `AERCScraper._find_details_elements`: returns whether the detail
table was found, and the initial past flag (set only when the table is
missing but a `* Results *` marker span is present). -/
def find_details_elements (row : CalRow) : Bool × Bool :=
  if ¬ row.hasDetailsTr then (false, false)
  else if row.hasDetailTable then (true, false)
  else if row.hasResultsStar then (false, true)
  else (false, false)

/-- The row loop of `_extract_details`: a results link sets `is_past` and
skips the row; once past, `Distances` rows are skipped; otherwise the
elif chain dispatches on the row text to the four parsing helpers. -/
def detailsLoop (pm pj pd pdd : String → Details → Details) :
    List DetailRow → Details → Bool → Details × Bool
  | [], d, is_past => (d, is_past)
  | r :: rs, d, is_past =>
    if r.hasResultsLink then detailsLoop pm pj pd pdd rs d true
    else
      let t := pyStrip r.text
      if is_past && containsSub (String.data ("Distances")) t.data then
        detailsLoop pm pj pd pdd rs d is_past
      else if containsSub (String.data ("Ride Manager")) t.data then
        detailsLoop pm pj pd pdd rs (pm t d) is_past
      else if containsSub (String.data ("Control Judge")) t.data then
        detailsLoop pm pj pd pdd rs (pj t d) is_past
      else if containsSub (String.data ("Distances")) t.data then
        detailsLoop pm pj pd pdd rs (pd t d) is_past
      else if containsSub (String.data ("Description")) t.data then
        detailsLoop pm pj pd pdd rs (pdd t d) is_past
      else if containsSub (String.data ("Directions")) t.data then
        detailsLoop pm pj pd pdd rs (pdd t d) is_past
      else detailsLoop pm pj pd pdd rs d is_past

/-- `AERCScraper._extract_details`: find the detail table, run the row
loop, and clear `distances` whenever the event was flagged past. -/
def extract_details (pm pj pd pdd : String → Details → Details)
    (row : CalRow) : Details × Bool :=
  let fd := find_details_elements row
  if fd.1 then
    let lp := detailsLoop pm pj pd pdd row.detailRows initDetails fd.2
    (if lp.2 then { lp.1 with distances := [] } else lp.1, lp.2)
  else (initDetails, fd.2)

/-- The per-row body of `AERCScraper.extract_event_data` (without the
best-effort LLM address enrichment, which never touches `distances`):
assemble the event dict from the basic extractors, fold in the details
dict, apply the past-event defaults, and fold in
`extract_city_state_country`. -/
def extract_event_data_row (pm pj pd pdd : String → Details → Details)
    (row : CalRow) : Event :=
  let dp := extract_details pm pj pd pdd row
  let e : Event :=
    { name := row.name
      ride_id := row.ride_id
      is_canceled := row.is_canceled
      region := row.region
      date_start := row.date_start
      location_name := some row.location_name
      website := row.website
      flyer_url := row.flyer_url
      event_type := some (determine_event_type row.rowText)
      has_intro_ride := row.has_intro_ride
      source := some ("AERC")
      ride_manager := dp.1.ride_manager
      manager_phone := dp.1.manager_phone
      manager_email := dp.1.manager_email
      description := dp.1.description
      directions := dp.1.directions
      control_judges := some dp.1.control_judges
      distances := some dp.1.distances }
  let e := if dp.2 then
      { e with is_multi_day_event := some false, is_pioneer_ride := some false,
               ride_days := some 1, date_end := row.date_start }
    else e
  let csc := extract_city_state_country row.location_name
  { e with city := csc.1, state := csc.2.1, country := some csc.2.2 }

/-- C6: whenever `_extract_details` flags a fragment as a past event
(`is_past = true`), the returned details carry an empty `distances`
list, and the record assembled by `extract_event_data` holds
`distances == []` — for every calendar row and every behaviour of the
four row-parsing helpers, i.e. regardless of whether results markup was
present or parseable. -/
theorem claim_C6 (pm pj pd pdd : String → Details → Details) (row : CalRow)
    (d : Details) (h : extract_details pm pj pd pdd row = (d, true)) :
    d.distances = [] ∧
    (extract_event_data_row pm pj pd pdd row).distances = some [] := by
  have hd : d.distances = [] := by
    unfold extract_details at h
    dsimp only at h
    by_cases hb : (find_details_elements row).1
    · rw [if_pos hb] at h
      by_cases hp : (detailsLoop pm pj pd pdd row.detailRows initDetails
          (find_details_elements row).2).2
      · rw [if_pos hp] at h
        have := congrArg Prod.fst h
        simp only at this
        rw [← this]
      · rw [if_neg hp] at h
        have h2 := congrArg Prod.snd h
        simp only at h2
        exact absurd h2 hp
    · rw [if_neg hb] at h
      have := congrArg Prod.fst h
      simp only at this
      rw [← this]
      rfl
  refine ⟨hd, ?_⟩
  unfold extract_event_data_row
  rw [h]
  simp [hd]

def c6f : String → Details → Details := fun _ d => d

/-- A helper that does append a parsed entry to `distances`, so that the
witness row genuinely has its parsed distances cleared. -/
def c6pd : String → Details → Details := fun _ d =>
  { d with distances := d.distances ++ [{ distance := "50", date := none, start_time := some ("00:00") }] }

def c6row : CalRow :=
  { ride_id := some ("11111"), date_start := some ("2025-06-01"),
    location_name := "Cityville, CA", rowText := "Test Ride",
    hasDetailsTr := true, hasDetailTable := true,
    detailRows := [{ text := "Distances: 50", hasResultsLink := false },
                   { text := "results", hasResultsLink := true }] }

theorem claim_C6_witness :
    extract_details c6f c6f c6pd c6f c6row = (initDetails, true) ∧
    (initDetails.distances = [] ∧
      (extract_event_data_row c6f c6f c6pd c6f c6row).distances = some []) :=
  ⟨by decide, claim_C6 c6f c6f c6pd c6f c6row initDetails (by decide)⟩
